import Mathlib

set_option linter.unusedVariables false

/-!
Verification of the tiron automation engine (runbook compiler, inventory
resolver, action parameter schema, wire transport, node agent) against its
natural-language specification.  Each section shallowly embeds the Rust
source it names; theorems at the end of the file settle the spec claims.
-/

/- ========================= DEFINITIONS ========================= -/

/-- Models `hcl::Value` as produced by attribute-expression evaluation
(`src/tiron/src/runbook.rs`): literal values only, spans dropped. -/
inductive HclValue where
  | null
  | bool (b : Bool)
  | num (n : Int)
  | str (s : String)
  | arr (xs : List HclValue)

/-- Association-list lookup returning the first binding; models
`HashMap::get` for maps built without duplicate keys. -/
def lookupA {α : Type} (attrs : List (String × α)) (key : String) : Option α :=
  match attrs with
  | [] => none
  | (k, v) :: rest => if k = key then some v else lookupA rest key

/-- Models `HashMap::insert`: replace an existing binding, else append. -/
def insertA {α : Type} (attrs : List (String × α)) (k : String) (v : α) :
    List (String × α) :=
  match attrs with
  | [] => [(k, v)]
  | (k', v') :: rest => if k' = k then (k, v) :: rest else (k', v') :: insertA rest k v

/-- Models `tiron_common::error::Error`: a message plus an optional source span
(`with_origin` resolves a span to line/column and `report_stderr` renders the
source line with a caret under it).  Spans are byte offsets, modeled as Nat. -/
structure Err where
  message : String
  location : Option Nat
deriving DecidableEq, Repr

/- ===== Action parameter schema (src/tiron-node/src/action/mod.rs) ===== -/

inductive ActionParamBaseType where
  | string
deriving DecidableEq, Repr

inductive ActionParamBaseValue where
  | str (s : String)
deriving DecidableEq, Repr

inductive ActionParamType where
  | string
  | bool
  | list (t : ActionParamBaseType)
  | enum (options : List ActionParamBaseValue)
deriving DecidableEq, Repr

inductive ActionParamValue where
  | str (s : String) (span : Option Nat)
  | bool (b : Bool)
  | list (xs : List ActionParamBaseValue)
  | base (v : ActionParamBaseValue)
deriving DecidableEq, Repr

/-- `ActionParamBaseType::parse_value` (mod.rs lines 39-48). -/
def ActionParamBaseType.parse_value : ActionParamBaseType → HclValue → Option ActionParamBaseValue
  | .string, .str s => some (.str s)
  | .string, _ => none

/-- `ActionParamBaseValue::match_value_new` (mod.rs lines 358-368). -/
def ActionParamBaseValue.match_value_new : ActionParamBaseValue → HclValue → Bool
  | .str base, .str s => base = s
  | .str _, _ => false

/-- The item loop inside `ActionParamType::parse_attr` for List types:
any non-matching item aborts with `None`. -/
def parseListItems (t : ActionParamBaseType) : List HclValue → Option (List ActionParamBaseValue)
  | [] => some []
  | v :: rest =>
    match t.parse_value v with
    | none => none
    | some b => (parseListItems t rest).map (fun items => b :: items)

/-- `ActionParamType::parse_attr` (mod.rs lines 78-110). -/
def ActionParamType.parse_attr : ActionParamType → HclValue → Option ActionParamValue
  | .string, .str s => some (.str s none)
  | .string, _ => none
  | .bool, .bool v => some (.bool v)
  | .bool, _ => none
  | .list t, .arr xs => (parseListItems t xs).map .list
  | .list _, _ => none
  | .enum options, v => (options.find? (fun o => o.match_value_new v)).map .base

/-- `Display for ActionParamBaseType`. -/
def ActionParamBaseType.displayStr : ActionParamBaseType → String
  | .string => "String"

/-- `Display for ActionParamBaseValue` (quotes the string). -/
def ActionParamBaseValue.displayStr : ActionParamBaseValue → String
  | .str s => "\"" ++ s ++ "\""

/-- `itertools::join` on strings. -/
def joinSep (sep : String) : List String → String
  | [] => ""
  | [x] => x
  | x :: rest => x ++ sep ++ joinSep sep rest

/-- `Display for ActionParamType` (mod.rs lines 146-161). -/
def ActionParamType.displayStr : ActionParamType → String
  | .string => "String"
  | .bool => "Boolean"
  | .list t => "List of " ++ t.displayStr
  | .enum options => "Enum of " ++ joinSep ", " (options.map ActionParamBaseValue.displayStr)

structure ActionParamDoc where
  name : String
  required : Bool
  type_ : List ActionParamType
  description : String
deriving Repr

/-- `ActionParamDoc::parse_attrs` (mod.rs lines 171-196): look the attribute up
by name, try each declared type in order, first match wins; a present attribute
matching no type is a type error, a missing required attribute is
`can't find <name>`, a missing optional attribute is absent. -/
def ActionParamDoc.parse_attrs (doc : ActionParamDoc) (attrs : List (String × HclValue)) :
    Except Err (Option ActionParamValue) :=
  match lookupA attrs doc.name with
  | some param =>
    match doc.type_.findSome? (fun t => t.parse_attr param) with
    | some value => .ok (some value)
    | none =>
      .error ⟨doc.name ++ " type should be " ++
        joinSep " or " (doc.type_.map ActionParamType.displayStr), none⟩
  | none =>
    if doc.required then .error ⟨"can't find " ++ doc.name, none⟩
    else .ok none

structure ActionDoc where
  description : String
  params : List ActionParamDoc

structure ActionParams where
  span : Option Nat
  values : List (Option ActionParamValue)

/-- The parameter loop of `ActionDoc::parse_attrs` (mod.rs lines 235-243). -/
def parseParamsList (params : List ActionParamDoc) (attrs : List (String × HclValue)) :
    Except Err (List (Option ActionParamValue)) :=
  match params with
  | [] => .ok []
  | p :: rest =>
    match p.parse_attrs attrs with
    | .error e => .error e
    | .ok v => (parseParamsList rest attrs).map (fun vs => v :: vs)

/-- `ActionDoc::parse_attrs` (mod.rs lines 235-243). -/
def ActionDoc.parse_attrs (doc : ActionDoc) (attrs : List (String × HclValue)) :
    Except Err ActionParams :=
  (parseParamsList doc.params attrs).map (fun values => ⟨none, values⟩)

/-- The `map_err` anchoring in `Runbook::parse_actions` (runbook.rs lines
695-701): an error that has no location yet is anchored at the span of the
`params` block identifier, under which the renderer draws the caret. -/
def anchorAt (span : Nat) (e : Err) : Err :=
  if e.location.isNone then ⟨e.message, some span⟩ else e

/-- Schema validation as invoked from `Runbook::parse_actions`. -/
def parse_attrs_anchored (doc : ActionDoc) (attrs : List (String × HclValue))
    (paramsSpan : Nat) : Except Err ActionParams :=
  match doc.parse_attrs attrs with
  | .error e => .error (anchorAt paramsSpan e)
  | .ok v => .ok v

/-- FileAction's schema exactly as declared in `FileAction::doc`
(src/tiron-node/src/action/file.rs lines 112-132): `path` required String,
`state` optional String.  Descriptions abbreviated. -/
def fileActionDoc : ActionDoc :=
  { description := "Manage files/folders and their properties"
    params := [
      { name := "path", required := true, type_ := [.string], description := "" },
      { name := "state", required := false, type_ := [.string], description := "" } ] }

/-- CopyAction's schema as declared in `CopyAction::doc`
(src/tiron-node/src/action/copy.rs lines 27-49). -/
def copyActionDoc : ActionDoc :=
  { description := "Copy the file to the remote machine"
    params := [
      { name := "src", required := true, type_ := [.string], description := "" },
      { name := "dest", required := true, type_ := [.string], description := "" } ] }

/- ===== bincode payload encoding (copy.rs / file.rs) ===== -/

/-- Little-endian fixed-width integer encoding, `k` bytes, as bincode's default
configuration writes lengths (u64) and enum variant tags (u32). -/
def leBytes : Nat → Nat → List Nat
  | 0, _ => []
  | k + 1, n => n % 256 :: leBytes k (n / 256)

/-- Little-endian byte-list decoding. -/
def readLE : List Nat → Nat
  | [] => 0
  | b :: bs => b + 256 * readLE bs

/-- bincode byte-sequence encoding: u64 little-endian length prefix, then the
raw bytes (used for `String` and `Vec<u8>` fields). -/
def encBytes (bs : List Nat) : List Nat := leBytes 8 bs.length ++ bs

/-- bincode byte-sequence decoding. -/
def decBytes (s : List Nat) : Option (List Nat × List Nat) :=
  if 8 ≤ s.length then
    let n := readLE (s.take 8)
    let r := s.drop 8
    if n ≤ r.length then some (r.take n, r.drop n) else none
  else none

/-- `FileState` (file.rs lines 9-15). -/
inductive FileState where
  | file
  | directory
  | absent
deriving DecidableEq, Repr

/-- bincode's u32 variant index for `FileState`, in declaration order. -/
def FileState.variantIndex : FileState → Nat
  | .file => 0
  | .directory => 1
  | .absent => 2

/-- The serialized payload struct of the `file` action (file.rs lines 17-32);
Rust Strings are modeled as byte lists. -/
structure FileActionData where
  path : List Nat
  state : FileState
deriving DecidableEq, Repr

/-- The serialized payload struct of the `copy` action (copy.rs lines 13-20). -/
structure CopyActionData where
  src : List Nat
  content : List Nat
  dest : List Nat
deriving DecidableEq, Repr

/-- `bincode::serialize` of a `FileAction` value: fields in declaration order. -/
def encodeFileAction (f : FileActionData) : List Nat :=
  encBytes f.path ++ leBytes 4 f.state.variantIndex

def decodeFileState (s : List Nat) : Option (FileState × List Nat) :=
  if 4 ≤ s.length then
    match readLE (s.take 4) with
    | 0 => some (.file, s.drop 4)
    | 1 => some (.directory, s.drop 4)
    | 2 => some (.absent, s.drop 4)
    | _ => none
  else none

/-- `bincode::deserialize::<FileAction>` as called in `FileAction::execute`. -/
def decodeFileAction (s : List Nat) : Option (FileActionData × List Nat) :=
  match decBytes s with
  | none => none
  | some (path, s1) => (decodeFileState s1).map (fun pr => (⟨path, pr.1⟩, pr.2))

/-- `bincode::serialize` of a `CopyAction` value: fields in declaration order. -/
def encodeCopyAction (c : CopyActionData) : List Nat :=
  encBytes c.src ++ encBytes c.content ++ encBytes c.dest

/-- `bincode::deserialize::<CopyAction>` as called in `CopyAction::execute`. -/
def decodeCopyAction (s : List Nat) : Option (CopyActionData × List Nat) :=
  match decBytes s with
  | none => none
  | some (src, s1) =>
    match decBytes s1 with
    | none => none
    | some (content, s2) =>
      (decBytes s2).map (fun pr => (⟨src, content, pr.1⟩, pr.2))

/-- Rust String contents as a byte list (modeled at code-point granularity;
exact for ASCII). -/
def strBytes (s : String) : List Nat := s.data.map Char.toNat

/-- Models `rcl::runtime::Value` restricted to the shapes the action `input`
implementations consume; dict keys are the looked-up strings. -/
inductive RclValue where
  | null
  | bool (b : Bool)
  | int (n : Int)
  | str (s : String) (span : Option Nat)
  | dict (fields : List (String × RclValue)) (span : Option Nat)
  | list (xs : List RclValue)
deriving Repr

/-- `Value::span` for the variants used here. -/
def RclValue.spanOf : RclValue → Option Nat
  | .str _ sp => sp
  | .dict _ sp => sp
  | _ => none

/-- `FileAction::input` (file.rs lines 39-84): extract `path`, default the
state to `File`, accept only `file` / `absent` / `directory` as state strings
(anything else is the error `state is invalid` at the state span), then
bincode-serialize the struct. -/
def fileActionInput (params : Option RclValue) : Except Err (List Nat) :=
  match params with
  | none => .error ⟨"can't find params", none⟩
  | some v =>
    match v with
    | .dict fields dictSpan =>
      match lookupA fields "path" with
      | none => .error ⟨"can't find path", dictSpan⟩
      | some pathV =>
        match pathV with
        | .str path _ =>
          match lookupA fields "state" with
          | none => .ok (encodeFileAction ⟨strBytes path, .file⟩)
          | some stateV =>
            match stateV with
            | .str state stateSpan =>
              if state = "file" then .ok (encodeFileAction ⟨strBytes path, .file⟩)
              else if state = "absent" then .ok (encodeFileAction ⟨strBytes path, .absent⟩)
              else if state = "directory" then .ok (encodeFileAction ⟨strBytes path, .directory⟩)
              else .error ⟨"state is invalid", stateSpan⟩
            | other => .error ⟨"state should be a string", other.spanOf⟩
        | other => .error ⟨"path should be a string", other.spanOf⟩
    | other => .error ⟨"params should be a Dict", other.spanOf⟩

/-- `CopyAction::input` (copy.rs lines 51-97).  The filesystem is abstracted by
`readFile`, returning the bytes of a readable regular file and `none`
otherwise (the three source failure cases collapse onto one message);
`cwd.join` is modeled as path concatenation. -/
def copyActionInput (readFile : String → Option (List Nat)) (cwd : String)
    (params : Option RclValue) : Except Err (List Nat) :=
  match params with
  | none => .error ⟨"can't find params", none⟩
  | some v =>
    match v with
    | .dict fields dictSpan =>
      match lookupA fields "src" with
      | none => .error ⟨"can't find src", dictSpan⟩
      | some srcV =>
        match srcV with
        | .str src srcSpan =>
          let srcFile := cwd ++ "/" ++ src
          match readFile srcFile with
          | none => .error ⟨"can't find src file", srcSpan⟩
          | some content =>
            match lookupA fields "dest" with
            | none => .error ⟨"can't find dest", dictSpan⟩
            | some destV =>
              match destV with
              | .str dest _ =>
                .ok (encodeCopyAction ⟨strBytes srcFile, content, strBytes dest⟩)
              | other => .error ⟨"dest isn't string", other.spanOf⟩
        | other => .error ⟨"src isn't string", other.spanOf⟩
    | other => .error ⟨"params should be a Dict", other.spanOf⟩

/- ===== Inventory resolver (src/tiron/src/runbook.rs, src/tiron/src/node.rs) ===== -/

/-- `tiron_common::action::ActionData`; the UUID id is modeled as a Nat. -/
structure ActionData where
  id : Nat
  name : String
  action : String
  input : List Nat
deriving DecidableEq, Repr

/-- `Node` (src/tiron/src/node.rs): the UI channel `tx` is dropped and the
fresh UUID `id` is modeled as a Nat (its value is never inspected). -/
structure Node where
  id : Nat
  host : String
  vars : List (String × HclValue)
  remote_user : Option String
  become_ : Bool
  actions : List ActionData

/-- `Node::new` (node.rs lines 31-56): promote `remote_user` (when a string)
and `become` (when a bool, else false) out of the entry's own vars. -/
def Node.new (host : String) (vars : List (String × HclValue)) : Node :=
  { id := 0
    host := host
    vars := vars
    remote_user := (lookupA vars "remote_user").bind (fun v =>
      match v with
      | .str s => some s
      | _ => none)
    become_ :=
      match lookupA vars "become" with
      | some v =>
        match v with
        | .bool b => b
        | _ => false
      | none => false
    actions := [] }

/-- One step of the outer-layer variable overlay in `Runbook::hosts_from_group`
(runbook.rs lines 526-556): fill a key only when absent from the node's vars;
along the way promote `remote_user` when the node has none yet.  No other key
is promoted by this loop. -/
def fillVar (node : Node) (kv : String × HclValue) : Node :=
  if (lookupA node.vars kv.1).isSome then node
  else
    let node' :=
      if kv.1 = "remote_user" ∧ node.remote_user = none then
        { node with remote_user :=
            match kv.2 with
            | .str s => some s
            | _ => none }
      else node
    { node' with vars := node'.vars ++ [kv] }

/-- The whole `for (key, val) in vars` overlay loop. -/
def fillVars (node : Node) (outer : List (String × HclValue)) : Node :=
  outer.foldl fillVar node

inductive HostOrGroup where
  | host (name : String)
  | group (name : String)
deriving DecidableEq, Repr

structure HostOrGroupConfig where
  host : HostOrGroup
  vars : List (String × HclValue)

structure GroupConfig where
  hosts : List HostOrGroupConfig
  vars : List (String × HclValue)
  imported : Option String

/-- A runbook restricted to what `hosts_from_group` consults: its groups and
its imported runbooks, both keyed by name/canonical path. -/
inductive RbkInv where
  | mk (groups : List (String × GroupConfig)) (imports : List (String × RbkInv))

def RbkInv.groups : RbkInv → List (String × GroupConfig)
  | .mk g _ => g

def RbkInv.imports : RbkInv → List (String × RbkInv)
  | .mk _ i => i

mutual

/-- `Runbook::hosts_from_group` (runbook.rs lines 501-560).  The Rust call
stack is modeled by `fuel`; `none` means the recursion exceeded it. -/
def hosts_from_group (fuel : Nat) (rb : RbkInv) (group : String) :
    Option (Except String (List Node)) :=
  match fuel with
  | 0 => none
  | fuel + 1 =>
    match lookupA rb.groups group with
    | none => some (.error ("hosts doesn't have group " ++ group))
    | some g =>
      let scopeR : Except String RbkInv :=
        match g.imported with
        | some imported =>
          match lookupA rb.imports imported with
          | none => .error "can't find imported"
          | some scope => .ok scope
        | none => .ok rb
      match scopeR with
      | .error e => some (.error e)
      | .ok scope => groupEntriesHosts fuel scope g.vars g.hosts
termination_by (fuel, 0)

/-- The entries loop of `hosts_from_group`: direct host entries become fresh
nodes from their own vars; nested group entries recurse in the scope runbook
and are overlaid with the entry vars; every entry's nodes are then overlaid
with the enclosing group's vars. -/
def groupEntriesHosts (fuel : Nat) (scope : RbkInv) (gvars : List (String × HclValue))
    (entries : List HostOrGroupConfig) : Option (Except String (List Node)) :=
  match entries with
  | [] => some (.ok [])
  | e :: rest =>
    let localHosts : Option (Except String (List Node)) :=
      match e.host with
      | .host name => some (.ok [Node.new name e.vars])
      | .group name =>
        match hosts_from_group fuel scope name with
        | none => none
        | some (.error er) => some (.error er)
        | some (.ok hs) => some (.ok (hs.map (fun h => fillVars h e.vars)))
    match localHosts with
    | none => none
    | some (.error er) => some (.error er)
    | some (.ok hs) =>
      let hs := hs.map (fun h => fillVars h gvars)
      match groupEntriesHosts fuel scope gvars rest with
      | none => none
      | some (.error er) => some (.error er)
      | some (.ok tl) => some (.ok (hs ++ tl))
termination_by (fuel, entries.length + 1)

end

/-- The synthetic localhost node built in `Runbook::parse_run`
(runbook.rs lines 132-144). -/
def localhostNode : Node :=
  { id := 0, host := "localhost", vars := [], remote_user := none,
    become_ := false, actions := [] }

/-- One iteration of the host-deduplication loop of `Runbook::parse_run`
(runbook.rs lines 123-130): push a resolved node only if no node with the
same host string was pushed before. -/
def dedupStep (hosts : List Node) (node : Node) : List Node :=
  if hosts.any (fun n => n.host == node.host) then hosts else hosts ++ [node]

/-- The whole host-deduplication loop of `Runbook::parse_run`. -/
def dedupHosts (resolved : List Node) : List Node :=
  resolved.foldl dedupStep []

/-- `Runbook::parse_run` host-list construction (runbook.rs lines 100-148):
deduplicate, and substitute the synthetic localhost node when empty. -/
def parse_run_hosts (resolved : List Node) : List Node :=
  let hosts := dedupHosts resolved
  if hosts.isEmpty then [localhostNode] else hosts

/-- Reference characterization of host deduplication: keep the first node for
each host string, in order. -/
def keepFirstByHost : List Node → List Node
  | [] => []
  | n :: rest => n :: keepFirstByHost (rest.filter (fun m => ¬(m.host == n.host)))
termination_by l => l.length
decreasing_by
  simp only [List.length_cons]
  exact Nat.lt_succ_of_le (List.length_filter_le _ _)

/- ===== Node agent mainloop (src/lapon-node/src/node.rs) ===== -/

/-- `lapon_common::action::ActionMessage` as the lapon-node agent mainloop
constructs it (node.rs lines 41-66): `NodeShutdown` is emitted there without a
payload.  Action ids are modeled as Nat. -/
inductive LActionMessage where
  | actionStarted (id : Nat)
  | actionStdout (id : Nat) (content : String)
  | actionStderr (id : Nat) (content : String)
  | actionResult (id : Nat) (success : Bool)
  | nodeShutdown
deriving DecidableEq, Repr

/-- `lapon_common::node::NodeMessage`. -/
inductive LNodeMessage where
  | action (a : ActionData)
  | shutdown
deriving DecidableEq, Repr

/-- An executor (`Action::execute`): the messages it emits through `tx` while
running, plus its result. -/
abbrev LExecutor := ActionData → List LActionMessage × Except String String

/-- `node_run_action` (node.rs lines 72-84): look the action up by `data.name`;
if found, emit `ActionStarted` and run it; otherwise fail without having
emitted anything. -/
def node_run_action (allActions : List (String × LExecutor)) (data : ActionData) :
    List LActionMessage × Except String String :=
  match lookupA allActions data.name with
  | some exec =>
    let r := exec data
    (LActionMessage.actionStarted data.id :: r.1, r.2)
  | none => ([], .error ("can't find action name " ++ data.name))

/-- One iteration of the agent mainloop (node.rs lines 36-67): with the sticky
`had_error` flag set, every message is dropped; otherwise an Action is run and
acknowledged (an error sets the flag), and a Shutdown emits `NodeShutdown`. -/
def mainloopStep (allActions : List (String × LExecutor)) (had_error : Bool)
    (msg : LNodeMessage) : Bool × List LActionMessage :=
  if had_error then (had_error, [])
  else
    match msg with
    | .action a =>
      let r := node_run_action allActions a
      match r.2 with
      | .ok result =>
        (false, r.1 ++ [.actionStdout a.id ("successfully " ++ result),
                        .actionResult a.id true])
      | .error e =>
        (true, r.1 ++ [.actionStdout a.id ("error: " ++ e),
                       .actionResult a.id false])
    | .shutdown => (false, [.nodeShutdown])

/-- The agent mainloop over the whole inbound channel contents, returning the
final flag and everything sent on `tx`, in order. -/
def mainloopRun (allActions : List (String × LExecutor)) :
    Bool → List LNodeMessage → Bool × List LActionMessage
  | st, [] => (st, [])
  | st, m :: rest =>
    let s := mainloopStep allActions st m
    let t := mainloopRun allActions s.1 rest
    (t.1, s.2 ++ t.2)

/-- `mainloop` (node.rs lines 33-70): starts with `had_error = false` and runs
until the channel closes. -/
def mainloop (allActions : List (String × LExecutor)) (msgs : List LNodeMessage) :
    List LActionMessage :=
  (mainloopRun allActions false msgs).2

/- ===== Action-plan builder (src/tiron/src/runbook.rs parse_actions) ===== -/

mutual

/-- Models `hcl_edit::structure::Structure`: attribute values are already
evaluated to `HclValue` (`SpannedValue::from_expression` on literals). -/
inductive PStructure where
  | attr (key : String) (value : HclValue)
  | block (b : PBlock)

/-- Models `hcl_edit::structure::Block` with string labels. -/
inductive PBlock where
  | mk (ident : String) (labels : List String) (body : List PStructure)

end

def PBlock.ident : PBlock → String
  | .mk i _ _ => i

def PBlock.labels : PBlock → List String
  | .mk _ l _ => l

def PBlock.body : PBlock → List PStructure
  | .mk _ _ b => b

/-- `Job` (src/tiron/src/runbook.rs): the stored block plus the canonical path
of the runbook it was imported from, if any. -/
structure PJob where
  block : PBlock
  imported : Option String

/-- A runbook restricted to what `parse_actions` consults: jobs and imports. -/
inductive PRunbook where
  | mk (jobs : List (String × PJob)) (imports : List (String × PRunbook))

def PRunbook.jobs : PRunbook → List (String × PJob)
  | .mk j _ => j

def PRunbook.imports : PRunbook → List (String × PRunbook)
  | .mk _ i => i

/-- A catalog entry as `parse_actions` consumes it: the schema plus the
compile function (`Action::doc` / `Action::input`). -/
structure CatalogAction where
  doc : ActionDoc
  input : ActionParams → Except Err (List Nat)

/-- The `find_map` locating the `params` child block. -/
def findParamsBlock (body : List PStructure) : Option PBlock :=
  body.findSome? (fun s =>
    match s with
    | .block b => if b.ident = "params" then some b else none
    | _ => none)

/-- The `find_map` locating the `name` attribute. -/
def findNameAttr (body : List PStructure) : Option HclValue :=
  body.findSome? (fun s =>
    match s with
    | .attr k v => if k = "name" then some v else none
    | _ => none)

/-- Building the attrs `HashMap` from the `params` block body, insertion
replacing earlier bindings as `HashMap::insert` does. -/
def attrsOfBlock (params : PBlock) : List (String × HclValue) :=
  params.body.foldl
    (fun attrs s =>
      match s with
      | .attr k v => insertA attrs k v
      | _ => attrs)
    []

mutual

/-- `Runbook::parse_actions` (runbook.rs lines 588-714).  The catalog is the
`all_actions()` registry.  The Rust call stack of the job-expansion recursion
is modeled by `fuel`: `none` means the recursion exceeded any finite stack.
Spans are dropped (`none` locations; the params anchor span is 0). -/
def parse_actions (catalog : List (String × CatalogAction)) (fuel : Nat)
    (rb : PRunbook) (block : PBlock) : Option (Except Err (List ActionData)) :=
  match fuel with
  | 0 => none
  | fuel + 1 => parseActionsBody catalog fuel rb block.body
termination_by (fuel, 0)

/-- The structure loop of `parse_actions`: process each `action` child block
in order and concatenate the produced action data. -/
def parseActionsBody (catalog : List (String × CatalogAction)) (fuel : Nat)
    (rb : PRunbook) (body : List PStructure) : Option (Except Err (List ActionData)) :=
  match body with
  | [] => some (.ok [])
  | .attr _ _ :: rest => parseActionsBody catalog fuel rb rest
  | .block b :: rest =>
    if b.ident = "action" then
      match parseOneAction catalog fuel rb b with
      | none => none
      | some (.error e) => some (.error e)
      | some (.ok acts) =>
        match parseActionsBody catalog fuel rb rest with
        | none => none
        | some (.error e) => some (.error e)
        | some (.ok tl) => some (.ok (acts ++ tl))
    else parseActionsBody catalog fuel rb rest
termination_by (fuel, body.length + 2)

/-- One `action "<kind>"` block (runbook.rs lines 594-709): label checks, the
`name` attribute, the `params` block and its attrs; then either the `job`
pseudo-kind (recursive expansion through the runbook's `jobs` map, switching
to the imported runbook's scope when the job was imported) or a catalog kind
(schema validation, compile, one `ActionData`). -/
def parseOneAction (catalog : List (String × CatalogAction)) (fuel : Nat)
    (rb : PRunbook) (b : PBlock) : Option (Except Err (List ActionData)) :=
  match b.labels with
  | [] => some (.error ⟨"No action name", none⟩)
  | _ :: _ :: _ => some (.error ⟨"You can only have one action name", none⟩)
  | [actionName] =>
    let nameR : Except Err (Option String) :=
      match findNameAttr b.body with
      | some v =>
        match v with
        | .str s => .ok (some s)
        | _ => .error ⟨"name should be a string", none⟩
      | none => .ok none
    match nameR with
    | .error e => some (.error e)
    | .ok name =>
      match findParamsBlock b.body with
      | none => some (.error ⟨"action doesn't have params", none⟩)
      | some params =>
        let attrs := attrsOfBlock params
        if actionName = "job" then
          match lookupA attrs "name" with
          | none => some (.error ⟨"job doesn't have name in params", none⟩)
          | some jv =>
            match jv with
            | .str jobName =>
              match lookupA rb.jobs jobName with
              | none => some (.error ⟨"can't find job name", none⟩)
              | some job =>
                let scopeR : Except Err PRunbook :=
                  match job.imported with
                  | some imported =>
                    match lookupA rb.imports imported with
                    | none => .error ⟨"can't find imported job", none⟩
                    | some rb' => .ok rb'
                  | none => .ok rb
                match scopeR with
                | .error e => some (.error e)
                | .ok scope => parse_actions catalog fuel scope job.block
            | _ => some (.error ⟨"job name should be a string", none⟩)
        else
          match lookupA catalog actionName with
          | none =>
            some (.error ⟨"action " ++ actionName ++ " can't be found", none⟩)
          | some act =>
            match parse_attrs_anchored act.doc attrs 0 with
            | .error e => some (.error e)
            | .ok ps =>
              match act.input ps with
              | .error e => some (.error e)
              | .ok input =>
                some (.ok [⟨0, name.getD actionName, actionName, input⟩])
termination_by (fuel, 1)

end

mutual

/-- Modelled from the commented-out predecessor of `parse_actions`
(src/tiron/src/action.rs lines 158-264, still called by the shipped
`Run::from_runbook` in src/tiron/src/run.rs with `job_depth = 0`): the same
expansion, but each job recursion increments a depth counter and a depth
above 500 is the config error `job name might have a endless loop here`. -/
def parse_actions_capped (catalog : List (String × CatalogAction)) (jobDepth : Nat)
    (rb : PRunbook) (block : PBlock) : Except Err (List ActionData) :=
  parseActionsCappedBody catalog jobDepth rb block.body
termination_by (501 - jobDepth, block.body.length + 3)

/-- The structure loop of the depth-capped variant. -/
def parseActionsCappedBody (catalog : List (String × CatalogAction)) (jobDepth : Nat)
    (rb : PRunbook) (body : List PStructure) : Except Err (List ActionData) :=
  match body with
  | [] => .ok []
  | .attr _ _ :: rest => parseActionsCappedBody catalog jobDepth rb rest
  | .block b :: rest =>
    if b.ident = "action" then
      match parseOneActionCapped catalog jobDepth rb b with
      | .error e => .error e
      | .ok acts =>
        match parseActionsCappedBody catalog jobDepth rb rest with
        | .error e => .error e
        | .ok tl => .ok (acts ++ tl)
    else parseActionsCappedBody catalog jobDepth rb rest
termination_by (501 - jobDepth, body.length + 2)

/-- One action block of the depth-capped variant: on the `job` pseudo-kind the
incremented depth is checked against the 500 cap before recursing. -/
def parseOneActionCapped (catalog : List (String × CatalogAction)) (jobDepth : Nat)
    (rb : PRunbook) (b : PBlock) : Except Err (List ActionData) :=
  match b.labels with
  | [] => .error ⟨"No action name", none⟩
  | _ :: _ :: _ => .error ⟨"You can only have one action name", none⟩
  | [actionName] =>
    let nameR : Except Err (Option String) :=
      match findNameAttr b.body with
      | some v =>
        match v with
        | .str s => .ok (some s)
        | _ => .error ⟨"name should be a string", none⟩
      | none => .ok none
    match nameR with
    | .error e => .error e
    | .ok name =>
      match findParamsBlock b.body with
      | none => .error ⟨"action doesn't have params", none⟩
      | some params =>
        let attrs := attrsOfBlock params
        if actionName = "job" then
          match lookupA attrs "name" with
          | none => .error ⟨"job doesn't have name in params", none⟩
          | some jv =>
            match jv with
            | .str jobName =>
              if h : 500 < jobDepth + 1 then
                .error ⟨"job name might have a endless loop here", none⟩
              else
                match lookupA rb.jobs jobName with
                | none => .error ⟨"can't find job name", none⟩
                | some job =>
                  let scopeR : Except Err PRunbook :=
                    match job.imported with
                    | some imported =>
                      match lookupA rb.imports imported with
                      | none => .error ⟨"can't find imported job", none⟩
                      | some rb' => .ok rb'
                    | none => .ok rb
                  match scopeR with
                  | .error e => .error e
                  | .ok scope => parse_actions_capped catalog (jobDepth + 1) scope job.block
            | _ => .error ⟨"job name should be a string", none⟩
        else
          match lookupA catalog actionName with
          | none => .error ⟨"action " ++ actionName ++ " can't be found", none⟩
          | some act =>
            match parse_attrs_anchored act.doc attrs 0 with
            | .error e => .error e
            | .ok ps =>
              match act.input ps with
              | .error e => .error e
              | .ok input => .ok [⟨0, name.getD actionName, actionName, input⟩]
termination_by (501 - jobDepth, 1)

end

/- ===== Import canonicalisation (src/tiron/src/runbook.rs parse_use) ===== -/

/-- The environment `parse_use` runs against: `parseFile` models
`Runbook::new` plus `Runbook::parse(false)` (reading and parsing the file at a
raw path), `canon` models `Path::canonicalize`. -/
structure UseDeps (α : Type) where
  parseFile : String → Except Err α
  canon : String → Option String

/-- The evolving state: the `imports` map keyed by canonical path, plus a
ledger of every raw path that was read and parsed, in order. -/
structure UseState (α : Type) where
  imports : List (String × α)
  parses : List String

/-- A `use` block reduced to its labels (re-export children only copy entries
between maps and are omitted). -/
structure UseBlock where
  labels : List String

/-- `Runbook::parse_use` (runbook.rs lines 301-368), in source order: label
checks; read and parse the file at `cwd.join(name)`; canonicalize the path;
only then check the imports map, rejecting a repeat with
`path already imported`; finally insert under the canonical path.  Errors
carry the state reached so far, modeling filesystem work already done. -/
def parse_use {α : Type} (deps : UseDeps α) (cwd : String) (st : UseState α)
    (b : UseBlock) : Except (Err × UseState α) (UseState α) :=
  match b.labels with
  | [] => .error (⟨"use needs a path", none⟩, st)
  | _ :: _ :: _ => .error (⟨"You can only have one path for use", none⟩, st)
  | [name] =>
    let path := cwd ++ "/" ++ name
    let st1 : UseState α := { st with parses := st.parses ++ [path] }
    match deps.parseFile path with
    | .error e => .error (e, st1)
    | .ok rb =>
      match deps.canon path with
      | none => .error (⟨"can't canonicalize path", none⟩, st1)
      | some cpath =>
        if (lookupA st1.imports cpath).isSome then
          .error (⟨"path already imported", none⟩, st1)
        else
          .ok { st1 with imports := st1.imports ++ [(cpath, rb)] }

/-- The `use` blocks of one runbook body, processed in order by
`Runbook::parse`; the first error aborts the load. -/
def processUses {α : Type} (deps : UseDeps α) (cwd : String) :
    UseState α → List UseBlock → Except (Err × UseState α) (UseState α)
  | st, [] => .ok st
  | st, b :: rest =>
    match parse_use deps cwd st b with
    | .error es => .error es
    | .ok st' => processUses deps cwd st' rest

/- ===== Wire transport (src/tiron-node/src/stdio.rs) ===== -/

mutual

/-- A JSON document, as `serde_json::Value` is used by `read_msg`: strings are
decoded byte lists, numbers keep their raw lexeme bytes. -/
inductive Json where
  | null
  | bool (b : Bool)
  | num (lex : List Nat)
  | str (s : List Nat)
  | arr (xs : JsonList)
  | obj (ms : JsonMembers)

inductive JsonList where
  | nil
  | cons (hd : Json) (tl : JsonList)

inductive JsonMembers where
  | nil
  | cons (key : List Nat) (val : Json) (tl : JsonMembers)

end

/-- Lowercase hex digit byte. -/
def hexDigit (d : Nat) : Nat := if d < 10 then 48 + d else 87 + d

/-- serde_json's string escaping, bytewise: quote, backslash, the five control
shorthands, `\u00XX` for other control bytes, everything else verbatim. -/
def escByte (b : Nat) : List Nat :=
  if b = 34 then [92, 34]
  else if b = 92 then [92, 92]
  else if b = 8 then [92, 98]
  else if b = 9 then [92, 116]
  else if b = 10 then [92, 110]
  else if b = 12 then [92, 102]
  else if b = 13 then [92, 114]
  else if b < 32 then [92, 117, 48, 48, hexDigit (b / 16), hexDigit (b % 16)]
  else [b]

def escBytes (s : List Nat) : List Nat := (s.map escByte).flatten

mutual

/-- serde_json's compact rendering (`serde_json::to_string`). -/
def renderJson : Json → List Nat
  | .null => [110, 117, 108, 108]
  | .bool true => [116, 114, 117, 101]
  | .bool false => [102, 97, 108, 115, 101]
  | .num lex => lex
  | .str s => 34 :: (escBytes s ++ [34])
  | .arr xs => 91 :: (renderElems xs ++ [93])
  | .obj ms => 123 :: (renderMembers ms ++ [125])

def renderElems : JsonList → List Nat
  | .nil => []
  | .cons x .nil => renderJson x
  | .cons x (.cons y tl) => renderJson x ++ 44 :: renderElems (.cons y tl)

def renderMembers : JsonMembers → List Nat
  | .nil => []
  | .cons k v .nil => 34 :: (escBytes k ++ [34]) ++ 58 :: renderJson v
  | .cons k v (.cons k2 v2 tl) =>
    34 :: (escBytes k ++ [34]) ++ 58 :: renderJson v ++ 44 :: renderMembers (.cons k2 v2 tl)

end

def isWsByte (b : Nat) : Bool := b = 32 || b = 9 || b = 10 || b = 13

def skipWs : List Nat → List Nat
  | [] => []
  | b :: rest => if isWsByte b then skipWs rest else b :: rest

def hexVal (b : Nat) : Option Nat :=
  if 48 ≤ b ∧ b ≤ 57 then some (b - 48)
  else if 97 ≤ b ∧ b ≤ 102 then some (b - 87)
  else if 65 ≤ b ∧ b ≤ 70 then some (b - 55)
  else none

/-- UTF-8 encoding of a `\uXXXX` scalar (at most three bytes are needed). -/
def utf8Enc (n : Nat) : List Nat :=
  if n < 128 then [n]
  else if n < 2048 then [192 + n / 64, 128 + n % 64]
  else [224 + n / 4096, 128 + n / 64 % 64, 128 + n % 64]

/-- JSON string body parsing (after the opening quote): unescape until the
closing quote; raw control bytes are rejected as serde_json rejects them. -/
def parseStringBody : List Nat → Option (List Nat × List Nat)
  | [] => none
  | b :: rest =>
    if b = 34 then some ([], rest)
    else if b = 92 then
      match rest with
      | [] => none
      | e :: rest2 =>
        if e = 34 then (parseStringBody rest2).map (fun p => (34 :: p.1, p.2))
        else if e = 92 then (parseStringBody rest2).map (fun p => (92 :: p.1, p.2))
        else if e = 47 then (parseStringBody rest2).map (fun p => (47 :: p.1, p.2))
        else if e = 98 then (parseStringBody rest2).map (fun p => (8 :: p.1, p.2))
        else if e = 102 then (parseStringBody rest2).map (fun p => (12 :: p.1, p.2))
        else if e = 110 then (parseStringBody rest2).map (fun p => (10 :: p.1, p.2))
        else if e = 114 then (parseStringBody rest2).map (fun p => (13 :: p.1, p.2))
        else if e = 116 then (parseStringBody rest2).map (fun p => (9 :: p.1, p.2))
        else if e = 117 then
          match rest2 with
          | h1 :: h2 :: h3 :: h4 :: rest3 =>
            match hexVal h1, hexVal h2, hexVal h3, hexVal h4 with
            | some a, some b2, some c, some d =>
              (parseStringBody rest3).map
                (fun p => (utf8Enc (((a * 16 + b2) * 16 + c) * 16 + d) ++ p.1, p.2))
            | _, _, _, _ => none
          | _ => none
        else none
    else if b < 32 then none
    else (parseStringBody rest).map (fun p => (b :: p.1, p.2))

def isDigitByte (b : Nat) : Bool := 48 ≤ b && b ≤ 57

def isNumStart (b : Nat) : Bool := isDigitByte b || b = 45

def isNumCont (b : Nat) : Bool :=
  isDigitByte b || b = 43 || b = 45 || b = 46 || b = 69 || b = 101

mutual

/-- Recursive-descent JSON value parser, modeling what `serde_json::from_str`
accepts; `fuel` bounds container nesting and element counts, and is always
given at least the input length plus one. -/
def parseValue (fuel : Nat) (s : List Nat) : Option (Json × List Nat) :=
  match skipWs s with
  | [] => none
  | b :: rest =>
    if b = 34 then (parseStringBody rest).map (fun p => (Json.str p.1, p.2))
    else if b = 91 then
      match fuel with
      | 0 => none
      | fuel + 1 => (parseElems fuel (skipWs rest)).map (fun p => (Json.arr p.1, p.2))
    else if b = 123 then
      match fuel with
      | 0 => none
      | fuel + 1 => (parseMembers fuel (skipWs rest)).map (fun p => (Json.obj p.1, p.2))
    else if b = 116 then
      match rest with
      | 114 :: 117 :: 101 :: r => some (.bool true, r)
      | _ => none
    else if b = 102 then
      match rest with
      | 97 :: 108 :: 115 :: 101 :: r => some (.bool false, r)
      | _ => none
    else if b = 110 then
      match rest with
      | 117 :: 108 :: 108 :: r => some (.null, r)
      | _ => none
    else if isNumStart b then
      some (.num (b :: rest.takeWhile isNumCont), rest.dropWhile isNumCont)
    else none
termination_by structural fuel

/-- Array contents at the first position: `]` or a first element. -/
def parseElems (fuel : Nat) (s : List Nat) : Option (JsonList × List Nat) :=
  if s.head? = some 93 then some (.nil, s.tail)
  else
    match fuel with
    | 0 => none
    | fuel + 1 =>
      match parseValue fuel s with
      | none => none
      | some (v, rest) =>
        (parseElemsTail fuel (skipWs rest)).map (fun p => (.cons v p.1, p.2))
termination_by structural fuel

/-- Array contents after an element: `]` or `,` and another element. -/
def parseElemsTail (fuel : Nat) (s : List Nat) : Option (JsonList × List Nat) :=
  if s.head? = some 93 then some (.nil, s.tail)
  else if s.head? = some 44 then
    match fuel with
    | 0 => none
    | fuel + 1 =>
      match parseValue fuel s.tail with
      | none => none
      | some (v, rest2) =>
        (parseElemsTail fuel (skipWs rest2)).map (fun p => (.cons v p.1, p.2))
  else none
termination_by structural fuel

/-- Object contents at the first position: `}` or a first member. -/
def parseMembers (fuel : Nat) (s : List Nat) : Option (JsonMembers × List Nat) :=
  if s.head? = some 125 then some (.nil, s.tail)
  else if s.head? = some 34 then
    match parseStringBody s.tail with
    | none => none
    | some (k, rest1) =>
      match skipWs rest1 with
      | 58 :: rest2 =>
        match fuel with
        | 0 => none
        | fuel + 1 =>
          match parseValue fuel rest2 with
          | none => none
          | some (v, rest3) =>
            (parseMembersTail fuel (skipWs rest3)).map (fun p => (.cons k v p.1, p.2))
      | _ => none
  else none
termination_by structural fuel

/-- Object contents after a member: `}` or `,` and another member. -/
def parseMembersTail (fuel : Nat) (s : List Nat) : Option (JsonMembers × List Nat) :=
  if s.head? = some 125 then some (.nil, s.tail)
  else if s.head? = some 44 then
    match skipWs s.tail with
    | 34 :: rest0 =>
      match parseStringBody rest0 with
      | none => none
      | some (k, rest1) =>
        match skipWs rest1 with
        | 58 :: rest2 =>
          match fuel with
          | 0 => none
          | fuel + 1 =>
            match parseValue fuel rest2 with
            | none => none
            | some (v, rest3) =>
              (parseMembersTail fuel (skipWs rest3)).map (fun p => (.cons k v p.1, p.2))
        | _ => none
    | _ => none
  else none
termination_by structural fuel

end

/-- `serde_json::from_str` into a `Value`: one JSON document spanning the whole
input up to trailing whitespace. -/
def jsonParse (line : List Nat) : Option Json :=
  match parseValue (line.length + 1) line with
  | none => none
  | some (v, rest) => if skipWs rest = [] then some v else none

/-- `BufRead::read_line`: everything up to and including the first newline, or
the whole input at EOF; returns the line and the remaining stream. -/
def readLine (s : List Nat) : List Nat × List Nat :=
  match s with
  | [] => ([], [])
  | b :: rest =>
    if b = 10 then ([10], rest)
    else
      let p := readLine rest
      (b :: p.1, p.2)

/-- `tiron_common::action::ActionData` on the wire: the `ActionId` newtype
around a `Uuid` serializes as its hyphenated string, modeled as the string's
bytes; `name`/`action` strings are byte lists; `input` is the `Vec<u8>`. -/
structure WActionData where
  id : List Nat
  name : List Nat
  action : List Nat
  input : List Nat

/-- `tiron_common::node::NodeMessage`. -/
inductive WNodeMessage where
  | action (d : WActionData)
  | shutdown

/-- Modelled from the spec: the `ActionOutputLevel` of §3 Messages
(tiron-common's action.rs is not under src/). -/
inductive WLevel where
  | info
  | warn
  | error
  | success

/-- Modelled from the spec: tiron-common's `ActionMessage` union (its source
file is not under src/); variants and fields follow §3 Messages and the
controller's usage in src/tiron/src/node.rs. -/
inductive WActionMessage where
  | actionStarted (id : List Nat)
  | actionOutputLine (id : List Nat) (content : List Nat) (level : WLevel)
  | actionResult (id : List Nat) (success : Bool)
  | nodeShutdown (success : Bool)
  | nodeStartFailed (reason : List Nat)

/-- Decimal digit bytes of a Nat, most significant first. -/
def natDigits (n : Nat) : List Nat :=
  if h : n < 10 then [48 + n]
  else natDigits (n / 10) ++ [48 + n % 10]
termination_by n
decreasing_by exact Nat.div_lt_self (by omega) (by omega)

/-- A `Vec<u8>` as a JSON array of numbers. -/
def natListToJson : List Nat → JsonList
  | [] => .nil
  | b :: rest => .cons (.num (natDigits b)) (natListToJson rest)

/-- serde_json serialization of `ActionData` (derived Serialize: an object
with the fields in declaration order). -/
def astOfActionData (d : WActionData) : Json :=
  .obj (.cons (strBytes "id") (.str d.id)
       (.cons (strBytes "name") (.str d.name)
       (.cons (strBytes "action") (.str d.action)
       (.cons (strBytes "input") (.arr (natListToJson d.input)) .nil))))

/-- serde_json serialization of `NodeMessage` (externally tagged: a unit
variant is its name string, a newtype variant a single-key object). -/
def astOfNodeMessage : WNodeMessage → Json
  | .shutdown => .str (strBytes "Shutdown")
  | .action d => .obj (.cons (strBytes "Action") (astOfActionData d) .nil)

def levelName : WLevel → String
  | .info => "Info"
  | .warn => "Warn"
  | .error => "Error"
  | .success => "Success"

/-- serde_json serialization of `ActionMessage` (externally tagged struct
variants: a single-key object holding the field object). -/
def astOfActionMessage : WActionMessage → Json
  | .actionStarted id =>
    .obj (.cons (strBytes "ActionStarted")
         (.obj (.cons (strBytes "id") (.str id) .nil)) .nil)
  | .actionOutputLine id content level =>
    .obj (.cons (strBytes "ActionOutputLine")
         (.obj (.cons (strBytes "id") (.str id)
               (.cons (strBytes "content") (.str content)
               (.cons (strBytes "level") (.str (strBytes (levelName level))) .nil)))) .nil)
  | .actionResult id success =>
    .obj (.cons (strBytes "ActionResult")
         (.obj (.cons (strBytes "id") (.str id)
               (.cons (strBytes "success") (.bool success) .nil))) .nil)
  | .nodeShutdown success =>
    .obj (.cons (strBytes "NodeShutdown")
         (.obj (.cons (strBytes "success") (.bool success) .nil)) .nil)
  | .nodeStartFailed reason =>
    .obj (.cons (strBytes "NodeStartFailed")
         (.obj (.cons (strBytes "reason") (.str reason) .nil)) .nil)

/-- `write_msg` (stdio.rs lines 35-44): the serde_json text of the message
followed by a newline, written and flushed as one frame. -/
def write_msg {α : Type} (astOf : α → Json) (msg : α) : List Nat :=
  renderJson (astOf msg) ++ [10]

/-- Field lookup in a decoded JSON object (serde ignores unknown fields). -/
def memberLookup : JsonMembers → List Nat → Option Json
  | .nil, _ => none
  | .cons k v tl, key => if k = key then some v else memberLookup tl key

def digitsToNat (ds : List Nat) : Nat := ds.foldl (fun a d => a * 10 + (d - 48)) 0

/-- Deserializing a JSON number into a `u8`: plain digits, value below 256. -/
def jsonToU8 : Json → Option Nat
  | .num lex =>
    if lex ≠ [] ∧ lex.all isDigitByte then
      if digitsToNat lex < 256 then some (digitsToNat lex) else none
    else none
  | _ => none

def jsonToU8List : JsonList → Option (List Nat)
  | .nil => some []
  | .cons x tl =>
    match jsonToU8 x with
    | none => none
    | some b => (jsonToU8List tl).map (fun bs => b :: bs)

def jsonToStr : Json → Option (List Nat)
  | .str s => some s
  | _ => none

def jsonToBool : Json → Option Bool
  | .bool b => some b
  | _ => none

/-- Deserializing `ActionData` from a JSON value (fields looked up by name). -/
def decodeActionData (j : Json) : Option WActionData :=
  match j with
  | .obj ms =>
    match memberLookup ms (strBytes "id") with
    | none => none
    | some idJ =>
      match jsonToStr idJ with
      | none => none
      | some id =>
        match memberLookup ms (strBytes "name") with
        | none => none
        | some nameJ =>
          match jsonToStr nameJ with
          | none => none
          | some name =>
            match memberLookup ms (strBytes "action") with
            | none => none
            | some actionJ =>
              match jsonToStr actionJ with
              | none => none
              | some action =>
                match memberLookup ms (strBytes "input") with
                | none => none
                | some inputJ =>
                  match inputJ with
                  | .arr xs => (jsonToU8List xs).map (fun input => ⟨id, name, action, input⟩)
                  | _ => none
  | _ => none

/-- Deserializing `NodeMessage` from a JSON value (externally tagged). -/
def decodeNodeMessage (j : Json) : Option WNodeMessage :=
  match j with
  | .str s => if s = strBytes "Shutdown" then some .shutdown else none
  | .obj (.cons k v .nil) =>
    if k = strBytes "Action" then (decodeActionData v).map .action else none
  | _ => none

def decodeLevel (j : Json) : Option WLevel :=
  match j with
  | .str s =>
    if s = strBytes "Info" then some .info
    else if s = strBytes "Warn" then some .warn
    else if s = strBytes "Error" then some .error
    else if s = strBytes "Success" then some .success
    else none
  | _ => none

/-- Deserializing `ActionMessage` from a JSON value (externally tagged). -/
def decodeActionMessage (j : Json) : Option WActionMessage :=
  match j with
  | .obj (.cons k v .nil) =>
    if k = strBytes "ActionStarted" then
      match v with
      | .obj ms => ((memberLookup ms (strBytes "id")).bind jsonToStr).map .actionStarted
      | _ => none
    else if k = strBytes "ActionOutputLine" then
      match v with
      | .obj ms =>
        match (memberLookup ms (strBytes "id")).bind jsonToStr with
        | none => none
        | some id =>
          match (memberLookup ms (strBytes "content")).bind jsonToStr with
          | none => none
          | some content =>
            ((memberLookup ms (strBytes "level")).bind decodeLevel).map
              (fun level => .actionOutputLine id content level)
      | _ => none
    else if k = strBytes "ActionResult" then
      match v with
      | .obj ms =>
        match (memberLookup ms (strBytes "id")).bind jsonToStr with
        | none => none
        | some id =>
          ((memberLookup ms (strBytes "success")).bind jsonToBool).map
            (fun success => .actionResult id success)
      | _ => none
    else if k = strBytes "NodeShutdown" then
      match v with
      | .obj ms =>
        ((memberLookup ms (strBytes "success")).bind jsonToBool).map .nodeShutdown
      | _ => none
    else if k = strBytes "NodeStartFailed" then
      match v with
      | .obj ms =>
        ((memberLookup ms (strBytes "reason")).bind jsonToStr).map .nodeStartFailed
      | _ => none
    else none
  | _ => none

/-- `read_msg` (stdio.rs lines 46-60): read one line, parse it as JSON (an
invalid line, including the empty read at EOF, is the error that stops the
caller), then try the typed deserialization, `none` on mismatch. -/
def read_msg {α : Type} (decode : Json → Option α) (s : List Nat) :
    Except Unit (Option α × List Nat) :=
  let p := readLine s
  match jsonParse p.1 with
  | none => .error ()
  | some v => .ok (decode v, p.2)

/-- The reader thread loop of `stdio_transport` (stdio.rs lines 26-32),
fuel-indexed: forward every decoded message, silently skip undecodable lines,
stop on a `read_msg` error.  Each iteration consumes at least one byte, so
fuel `length + 1` realizes the unbounded loop. -/
def readerLoopF {α : Type} (decode : Json → Option α) : Nat → List Nat → List α
  | 0, _ => []
  | fuel + 1, s =>
    match read_msg decode s with
    | .error _ => []
    | .ok (none, rest) => readerLoopF decode fuel rest
    | .ok (some m, rest) => m :: readerLoopF decode fuel rest

/-- The reader thread on a finite stream: the messages it pushes onto the
inbound channel before terminating. -/
def readerLoop {α : Type} (decode : Json → Option α) (s : List Nat) : List α :=
  readerLoopF decode (s.length + 1) s

/-- The spec's claimed frame format, following its words: a bincode-style
length-prefixed native little-endian binary frame (bincode's default length
type is a u64). -/
def lengthPrefixedFrame (payload : List Nat) : List Nat :=
  leBytes 8 payload.length ++ payload

/-- The same claimed framing with a 4-byte length prefix, for completeness. -/
def lengthPrefixedFrame32 (payload : List Nat) : List Nat :=
  leBytes 4 payload.length ++ payload

/-- The params block of the claim's self-recursive job: `params { name = "x" }`. -/
def paramsBlockX : PBlock := .mk "params" [] [.attr "name" (.str "x")]

/-- The action block `action "job" { params { name = "x" } }`. -/
def actionBlockX : PBlock := .mk "action" ["job"] [.block paramsBlockX]

/-- The job block `job "x"` whose body invokes job "x" again. -/
def jobBlockX : PBlock := .mk "job" ["x"] [.block actionBlockX]

/-- A run block invoking job "x". -/
def runBlockX : PBlock := .mk "run" ["main"] [.block actionBlockX]

/-- The runbook holding the self-recursive job "x". -/
def rbX : PRunbook := .mk [("x", ⟨jobBlockX, none⟩)] []

/- Wellformedness and fuel bookkeeping for the JSON model. -/

mutual

/-- Documents our message encoders produce: number lexemes are nonempty plain
digit strings. -/
def goodJson : Json → Bool
  | .null => true
  | .bool _ => true
  | .num lex => !lex.isEmpty && lex.all isDigitByte
  | .str _ => true
  | .arr xs => goodElems xs
  | .obj ms => goodMembers ms

def goodElems : JsonList → Bool
  | .nil => true
  | .cons x tl => goodJson x && goodElems tl

def goodMembers : JsonMembers → Bool
  | .nil => true
  | .cons _ v tl => goodJson v && goodMembers tl

end

mutual

/-- Fuel needed by `parseValue` to parse a rendered document. -/
def needJ : Json → Nat
  | .null => 0
  | .bool _ => 0
  | .num _ => 0
  | .str _ => 0
  | .arr xs => 1 + needElems xs
  | .obj ms => 1 + needMembers ms

def needElems : JsonList → Nat
  | .nil => 0
  | .cons x tl => 1 + needJ x + needElemsTail tl

def needElemsTail : JsonList → Nat
  | .nil => 0
  | .cons x tl => 1 + needJ x + needElemsTail tl

def needMembers : JsonMembers → Nat
  | .nil => 0
  | .cons _ v tl => 1 + needJ v + needMembersTail tl

def needMembersTail : JsonMembers → Nat
  | .nil => 0
  | .cons _ v tl => 1 + needJ v + needMembersTail tl

end

/-- A rendered value followed by `rest` parses unambiguously when `rest`
cannot extend a number lexeme (only relevant for numbers). -/
def restSafe (j : Json) (rest : List Nat) : Prop :=
  match j with
  | .num _ => ∀ b, rest.head? = some b → isNumCont b = false
  | _ => True

/-- The bytes following the first element of a rendered array. -/
def elemsTailRender : JsonList → List Nat
  | .nil => []
  | .cons x tl => 44 :: renderElems (.cons x tl)

/-- The bytes following the first member of a rendered object. -/
def membersTailRender : JsonMembers → List Nat
  | .nil => []
  | .cons k v tl => 44 :: renderMembers (.cons k v tl)

/-- A `NodeMessage` whose `input` bytes are genuine u8 values (guaranteed by
the Rust `Vec<u8>` type). -/
def validNodeMsg : WNodeMessage → Prop
  | .action d => ∀ b ∈ d.input, b < 256
  | .shutdown => True

/- ========================= THEOREMS ========================= -/

theorem lookupA_nil {α : Type} (k : String) : lookupA ([] : List (String × α)) k = none := rfl

/-- keys helper: a `lookupA` miss means no binding for the key. -/
theorem lookupA_eq_none_iff {α : Type} (l : List (String × α)) (k : String) :
    lookupA l k = none ↔ ∀ p ∈ l, p.1 ≠ k := by
  induction l with
  | nil => simp [lookupA]
  | cons p rest ih =>
    obtain ⟨k', v⟩ := p
    by_cases h : k' = k
    · subst h
      simp [lookupA]
    · simp [lookupA, h, ih]

/- ===== C8: missing required parameter ===== -/

/-- C8.  Missing required parameter: a declared parameter absent from the
attrs map fails schema validation with exactly `can't find <name>` when
required, and is absent without error when optional; `Runbook::parse_actions`
anchors the location-less error at the `params` block span (where the renderer
draws the caret), shown for the `copy` schema missing `src`. -/
theorem c8_missing_required_param :
    (∀ (doc : ActionParamDoc) (attrs : List (String × HclValue)),
      doc.required = true → lookupA attrs doc.name = none →
      doc.parse_attrs attrs = .error ⟨"can't find " ++ doc.name, none⟩)
    ∧ (∀ (doc : ActionParamDoc) (attrs : List (String × HclValue)),
      doc.required = false → lookupA attrs doc.name = none →
      doc.parse_attrs attrs = .ok none)
    ∧ (∀ (attrs : List (String × HclValue)) (span : Nat),
      lookupA attrs "src" = none →
      parse_attrs_anchored copyActionDoc attrs span = .error ⟨"can't find src", some span⟩) := by
  refine ⟨?_, ?_, ?_⟩
  · intro doc attrs hreq hmiss
    simp [ActionParamDoc.parse_attrs, hmiss, hreq]
  · intro doc attrs hreq hmiss
    simp [ActionParamDoc.parse_attrs, hmiss, hreq]
  · intro attrs span hmiss
    simp [parse_attrs_anchored, copyActionDoc, ActionDoc.parse_attrs, parseParamsList,
      ActionParamDoc.parse_attrs, hmiss, anchorAt, Except.map]

/-- C8 witness: the `copy` action with only `dest` given. -/
theorem c8_missing_required_param_witness :
    ActionParamDoc.parse_attrs ⟨"src", true, [.string], ""⟩ [("dest", HclValue.str "/d")]
      = .error ⟨"can't find src", none⟩
    ∧ ActionParamDoc.parse_attrs ⟨"state", false, [.string], ""⟩ [("path", HclValue.str "/p")]
      = .ok none
    ∧ parse_attrs_anchored copyActionDoc [("dest", HclValue.str "/d")] 7
      = .error ⟨"can't find src", some 7⟩ := by
  refine ⟨?_, ?_, ?_⟩
  · exact c8_missing_required_param.1 ⟨"src", true, [.string], ""⟩ _ rfl rfl
  · exact c8_missing_required_param.2.1 ⟨"state", false, [.string], ""⟩ _ rfl rfl
  · exact c8_missing_required_param.2.2 _ 7 rfl

/- ===== C7: enum parameter validation ===== -/

/-- C7 counterexample.  The claim says `file` with `state="nope"` fails schema
validation with `state type should be Enum of "file", "absent", "directory"`.
In the code, `state` is declared an optional String: validation of those attrs
succeeds outright; a type mismatch on `state` would say
`state type should be String`; and the failure that does occur comes from
`FileAction::input` with the message `state is invalid`. -/
theorem c7_counterexample :
    fileActionDoc.parse_attrs [("path", HclValue.str "/t"), ("state", HclValue.str "nope")]
      = .ok ⟨none, [some (.str "/t" none), some (.str "nope" none)]⟩
    ∧ (fileActionDoc.params.map ActionParamDoc.type_) = [[.string], [.string]]
    ∧ ActionParamDoc.parse_attrs ⟨"state", false, [.string], ""⟩ [("state", HclValue.bool true)]
      = .error ⟨"state type should be String", none⟩
    ∧ fileActionInput (some (.dict [("path", .str "/t" none), ("state", .str "nope" (some 42))] none))
      = .error ⟨"state is invalid", some 42⟩ := by
  refine ⟨?_, by decide, ?_, ?_⟩
  · simp [fileActionDoc, ActionDoc.parse_attrs, parseParamsList, ActionParamDoc.parse_attrs,
      lookupA, ActionParamType.parse_attr, Except.map]
  · simp [ActionParamDoc.parse_attrs, lookupA, ActionParamType.parse_attr,
      ActionParamType.displayStr, joinSep, Except.map]
  · simp [fileActionInput, lookupA]

/-- C7 amended.  For any state string other than the three accepted values,
schema validation (state being an optional String parameter) succeeds, and the
compile step `FileAction::input` is what rejects it, with the error
`state is invalid` at the state value's span. -/
theorem c7_state_validation (s : String) (sp pathSp : Option Nat)
    (h1 : s ≠ "file") (h2 : s ≠ "absent") (h3 : s ≠ "directory") :
    fileActionDoc.parse_attrs [("path", HclValue.str "/t"), ("state", HclValue.str s)]
      = .ok ⟨none, [some (.str "/t" none), some (.str s none)]⟩
    ∧ fileActionInput (some (.dict [("path", .str "/t" pathSp), ("state", .str s sp)] none))
      = .error ⟨"state is invalid", sp⟩ := by
  constructor
  · simp [fileActionDoc, ActionDoc.parse_attrs, parseParamsList, ActionParamDoc.parse_attrs,
      lookupA, ActionParamType.parse_attr, Except.map]
  · simp [fileActionInput, lookupA, h1, h2, h3]

/-- C7 amended witness: `state="nope"`. -/
theorem c7_state_validation_witness :
    fileActionDoc.parse_attrs [("path", HclValue.str "/t"), ("state", HclValue.str "nope")]
      = .ok ⟨none, [some (.str "/t" none), some (.str "nope" none)]⟩
    ∧ fileActionInput (some (.dict [("path", .str "/t" none), ("state", .str "nope" (some 3))] none))
      = .error ⟨"state is invalid", some 3⟩ :=
  c7_state_validation "nope" (some 3) none (by decide) (by decide) (by decide)

/- ===== C5: import canonicalisation ===== -/

/-- C5 counterexample.  Two `use` blocks whose paths canonicalise to the same
file: the second import is rejected with `path already imported`, but only
after the file has been read and parsed a second time — the parse ledger of
the final state holds both raw paths, refuting `parsed exactly once` and
`checked before any re-parse`. -/
theorem c5_counterexample :
    processUses (α := Unit) ⟨fun _ => .ok (), fun _ => some "C"⟩ "w"
        ⟨[], []⟩ [⟨["a"]⟩, ⟨["b"]⟩]
      = .error (⟨"path already imported", none⟩, ⟨[("C", ())], ["w/a", "w/b"]⟩)
    ∧ (["w/a", "w/b"] : List String).length = 2 := by
  constructor
  · rfl
  · rfl

/-- C5 amended.  `parse_use` reads and parses the file first and checks the
canonical path against the imports map only afterwards: a repeated canonical
path is rejected with `path already imported` with the file freshly re-parsed
(the ledger grows), a fresh canonical path is inserted exactly once, and the
imports map keys stay unique either way. -/
theorem c5_parse_use (α : Type) (deps : UseDeps α) (cwd : String)
    (st : UseState α) (l : String) (rb : α) (c : String)
    (hparse : deps.parseFile (cwd ++ "/" ++ l) = .ok rb)
    (hcanon : deps.canon (cwd ++ "/" ++ l) = some c) :
    (lookupA st.imports c ≠ none →
      parse_use deps cwd st ⟨[l]⟩
        = .error (⟨"path already imported", none⟩,
            ⟨st.imports, st.parses ++ [cwd ++ "/" ++ l]⟩))
    ∧ (lookupA st.imports c = none →
      parse_use deps cwd st ⟨[l]⟩
        = .ok ⟨st.imports ++ [(c, rb)], st.parses ++ [cwd ++ "/" ++ l]⟩)
    ∧ ((st.imports.map Prod.fst).Nodup →
      ∀ st', parse_use deps cwd st ⟨[l]⟩ = .ok st' →
        (st'.imports.map Prod.fst).Nodup) := by
  refine ⟨?_, ?_, ?_⟩
  · intro hmem
    have : (lookupA st.imports c).isSome := by
      cases h : lookupA st.imports c with
      | none => exact absurd h hmem
      | some _ => rfl
    simp [parse_use, hparse, hcanon, this]
  · intro hmiss
    simp [parse_use, hparse, hcanon, hmiss]
  · intro hnodup st' hok
    cases hmiss : lookupA st.imports c with
    | none =>
      have := hmiss
      simp [parse_use, hparse, hcanon, hmiss] at hok
      subst hok
      simp only [List.map_append, List.map_cons, List.map_nil]
      rw [List.nodup_append]
      refine ⟨hnodup, by simp, ?_⟩
      intro x hx hx'
      simp at hx'
      subst hx'
      rcases List.mem_map.mp hx with ⟨p, hp, hpk⟩
      exact ((lookupA_eq_none_iff _ _).mp hmiss) p hp hpk
    | some v =>
      have : (lookupA st.imports c).isSome := by rw [hmiss]; rfl
      simp [parse_use, hparse, hcanon, this] at hok

/-- C5 amended witness: a repeat import of canonical path C. -/
theorem c5_parse_use_witness :
    parse_use (α := Unit) ⟨fun _ => .ok (), fun _ => some "C"⟩ "w"
        ⟨[("C", ())], ["w/a"]⟩ ⟨["b"]⟩
      = .error (⟨"path already imported", none⟩, ⟨[("C", ())], ["w/a", "w/b"]⟩) := by
  have h := (c5_parse_use Unit ⟨fun _ => .ok (), fun _ => some "C"⟩ "w"
    ⟨[("C", ())], ["w/a"]⟩ "b" () "C" rfl rfl).1 (by decide)
  exact h

/- ===== C1: node agent first-failure semantics ===== -/

/-- Helper: with the sticky `had_error` flag set, the mainloop drops every
remaining message and emits nothing. -/
theorem mainloopRun_sticky (allActions : List (String × LExecutor)) :
    ∀ msgs : List LNodeMessage, mainloopRun allActions true msgs = (true, []) := by
  intro msgs
  induction msgs with
  | nil => rfl
  | cons m rest ih => simp [mainloopRun, mainloopStep, ih]

/-- Helper: the mainloop over a concatenation runs the pieces in sequence. -/
theorem mainloopRun_append (allActions : List (String × LExecutor))
    (l1 l2 : List LNodeMessage) (st : Bool) :
    mainloopRun allActions st (l1 ++ l2)
      = ((mainloopRun allActions (mainloopRun allActions st l1).1 l2).1,
         (mainloopRun allActions st l1).2
           ++ (mainloopRun allActions (mainloopRun allActions st l1).1 l2).2) := by
  induction l1 generalizing st with
  | nil => simp [mainloopRun]
  | cons m rest ih =>
    simp only [List.cons_append, mainloopRun]
    rw [show rest.append l2 = rest ++ l2 from rfl, ih]
    simp [List.append_assoc]

/-- C1 counterexample.  A failing action makes the agent emit the error line
and `ActionResult{false}` and nothing else: no `NodeShutdown` follows, and the
subsequent `Shutdown` message is dropped, so the agent does not shut down on
first failure — it keeps draining the channel. -/
theorem c1_counterexample :
    mainloop [("f", fun _ => ([], .error "boom"))]
        [.action ⟨1, "f", "f", []⟩, .shutdown]
      = [.actionStarted 1, .actionStdout 1 "error: boom", .actionResult 1 false]
    ∧ LActionMessage.nodeShutdown ∉
        mainloop [("f", fun _ => ([], .error "boom"))]
          [.action ⟨1, "f", "f", []⟩, .shutdown] := by
  constructor
  · rfl
  · intro h
    rw [show mainloop [("f", fun _ => ([], .error "boom"))]
        [.action ⟨1, "f", "f", []⟩, .shutdown]
      = [.actionStarted 1, .actionStdout 1 "error: boom", .actionResult 1 false] from rfl] at h
    simp at h

/-- C1 amended.  When the first failing action arrives (after a prefix that
left the flag clear), the agent emits the executor's own messages, then the
error `ActionStdout` line, then `ActionResult{id,false}`, sets the sticky
`had_error` flag, and emits nothing further: every following message — Action
and Shutdown alike — is dropped without being executed or acknowledged, no
`NodeShutdown` is ever emitted after the failure, and the loop keeps draining
the channel instead of terminating. -/
theorem c1_first_failure (allActions : List (String × LExecutor))
    (pre rest : List LNodeMessage) (a : ActionData) (e : String) (out : List LActionMessage)
    (hpre : mainloopRun allActions false pre = (false, out))
    (hfail : (node_run_action allActions a).2 = .error e) :
    mainloopRun allActions false (pre ++ LNodeMessage.action a :: rest)
      = (true, out ++ ((node_run_action allActions a).1
          ++ [.actionStdout a.id ("error: " ++ e), .actionResult a.id false]))
    ∧ mainloop allActions (pre ++ LNodeMessage.action a :: rest)
      = out ++ ((node_run_action allActions a).1
          ++ [.actionStdout a.id ("error: " ++ e), .actionResult a.id false]) := by
  have hstep : mainloopStep allActions false (LNodeMessage.action a)
      = (true, (node_run_action allActions a).1
          ++ [.actionStdout a.id ("error: " ++ e), .actionResult a.id false]) := by
    simp [mainloopStep, hfail]
  have hmain : mainloopRun allActions false (pre ++ LNodeMessage.action a :: rest)
      = (true, out ++ ((node_run_action allActions a).1
          ++ [.actionStdout a.id ("error: " ++ e), .actionResult a.id false])) := by
    rw [mainloopRun_append, hpre]
    simp only [mainloopRun, hstep, mainloopRun_sticky]
    simp
  exact ⟨hmain, by simp [mainloop, hmain]⟩

/-- C1 amended witness: one failing action followed by a Shutdown. -/
theorem c1_first_failure_witness :
    mainloop [("f", fun _ => ([], Except.error "boom"))]
        ([] ++ LNodeMessage.action ⟨1, "f", "f", []⟩ :: [LNodeMessage.shutdown])
      = [] ++ (([.actionStarted 1] : List LActionMessage)
          ++ [.actionStdout 1 ("error: " ++ "boom"), .actionResult 1 false]) := by
  have h := c1_first_failure [("f", fun _ => ([], Except.error "boom"))]
    [] [LNodeMessage.shutdown] ⟨1, "f", "f", []⟩ "boom" [] rfl rfl
  exact h.2

/- ===== C6: run host list construction ===== -/

/-- Helper: folding `dedupStep` over a list only ever consults the host set of
its accumulator, so elements whose host is already present can be filtered
away up front. -/
theorem dedupFold_filter (l : List Node) :
    ∀ (acc : List Node) (x : Node), acc.any (fun n => n.host == x.host) = true →
    l.foldl dedupStep acc
      = (l.filter (fun m => ¬(m.host == x.host))).foldl dedupStep acc := by
  induction l with
  | nil => intro acc x hx; rfl
  | cons a l ih =>
    intro acc x hx
    by_cases hax : a.host = x.host
    · have hskip : dedupStep acc a = acc := by
        have hfun : (fun n : Node => n.host == a.host) = (fun n : Node => n.host == x.host) := by
          funext n; rw [hax]
        simp [dedupStep, hfun, hx]
      have hfilter : (a :: l).filter (fun m => ¬(m.host == x.host))
          = l.filter (fun m => ¬(m.host == x.host)) := by
        simp [List.filter_cons, hax]
      rw [hfilter, List.foldl_cons, hskip]
      exact ih acc x hx
    · have hfilter : (a :: l).filter (fun m => ¬(m.host == x.host))
          = a :: l.filter (fun m => ¬(m.host == x.host)) := by
        simp [List.filter_cons, hax]
      rw [hfilter, List.foldl_cons, List.foldl_cons]
      refine ih (dedupStep acc a) x ?_
      by_cases hc : acc.any (fun n => n.host == a.host) = true
      · simp [dedupStep, hc, hx]
      · have hpush : dedupStep acc a = acc ++ [a] := by
          simp only [Bool.not_eq_true] at hc
          simp [dedupStep, hc]
        rw [hpush, List.any_append]
        simp [hx]

/-- Helper: an accumulator head whose host occurs nowhere in the remaining
list stays in front and does not interfere. -/
theorem dedupFold_cons_acc (l : List Node) :
    ∀ (acc : List Node) (x : Node), (∀ m ∈ l, (m.host == x.host) = false) →
    l.foldl dedupStep (x :: acc) = x :: l.foldl dedupStep acc := by
  induction l with
  | nil => intro acc x _; rfl
  | cons a l ih =>
    intro acc x hl
    have hxa : (x.host == a.host) = false := by
      have := hl a (List.mem_cons_self a l)
      simp only [beq_eq_false_iff_ne] at this ⊢
      exact fun h => this h.symm
    have hstep : dedupStep (x :: acc) a = x :: dedupStep acc a := by
      simp only [dedupStep, List.any_cons, hxa, Bool.false_or]
      by_cases hc : acc.any (fun n => n.host == a.host) = true
      · simp [hc]
      · simp only [Bool.not_eq_true] at hc
        simp [hc]
    simp only [List.foldl_cons, hstep]
    exact ih (dedupStep acc a) x (fun m hm => hl m (List.mem_cons_of_mem a hm))

/-- Helper: the dedup loop keeps exactly the first node of each host string,
in insertion order. -/
theorem dedupHosts_eq_keepFirst : ∀ l : List Node, dedupHosts l = keepFirstByHost l
  | [] => by simp [dedupHosts, keepFirstByHost]
  | x :: l => by
    have h1 : dedupHosts (x :: l) = l.foldl dedupStep [x] := by
      simp [dedupHosts, dedupStep]
    have h2 : l.foldl dedupStep [x]
        = (l.filter (fun m => ¬(m.host == x.host))).foldl dedupStep [x] := by
      refine dedupFold_filter l [x] x ?_
      simp
    have h3 : (l.filter (fun m => ¬(m.host == x.host))).foldl dedupStep [x]
        = x :: (l.filter (fun m => ¬(m.host == x.host))).foldl dedupStep [] := by
      refine dedupFold_cons_acc _ [] x ?_
      intro m hm
      have := List.of_mem_filter hm
      simpa using this
    have h4 : dedupHosts (l.filter (fun m => ¬(m.host == x.host)))
        = keepFirstByHost (l.filter (fun m => ¬(m.host == x.host))) :=
      dedupHosts_eq_keepFirst (l.filter (fun m => ¬(m.host == x.host)))
    rw [h1, h2, h3]
    rw [show (l.filter (fun m => ¬(m.host == x.host))).foldl dedupStep []
        = dedupHosts (l.filter (fun m => ¬(m.host == x.host))) from rfl]
    rw [h4]
    conv_rhs => rw [keepFirstByHost]
termination_by l => l.length
decreasing_by
  simp only [List.length_cons]
  exact Nat.lt_succ_of_le (List.length_filter_le _ _)

/-- Helper: deduplication yields a sublist of the resolved nodes (insertion
order and node identity preserved). -/
theorem keepFirst_sublist : ∀ l : List Node, List.Sublist (keepFirstByHost l) l
  | [] => by
    rw [keepFirstByHost]
  | x :: l => by
    rw [keepFirstByHost]
    exact List.Sublist.cons₂ x
      ((keepFirst_sublist _).trans (List.filter_sublist l))
termination_by l => l.length
decreasing_by
  simp only [List.length_cons]
  exact Nat.lt_succ_of_le (List.length_filter_le _ _)

/-- Helper: the kept nodes have pairwise distinct host strings. -/
theorem keepFirst_pairwise :
    ∀ l : List Node, (keepFirstByHost l).Pairwise (fun a b => a.host ≠ b.host)
  | [] => by
    rw [keepFirstByHost]
    exact List.Pairwise.nil
  | x :: l => by
    rw [keepFirstByHost]
    refine List.Pairwise.cons ?_ (keepFirst_pairwise _)
    intro b hb
    have hbf : b ∈ l.filter (fun m => ¬(m.host == x.host)) :=
      (keepFirst_sublist _).subset hb
    have := List.of_mem_filter hbf
    simp at this
    exact Ne.symm this
termination_by l => l.length
decreasing_by
  simp only [List.length_cons]
  exact Nat.lt_succ_of_le (List.length_filter_le _ _)

/-- Helper: every resolved host string survives deduplication. -/
theorem keepFirst_complete :
    ∀ l : List Node, ∀ n ∈ l, ∃ m, m ∈ keepFirstByHost l ∧ m.host = n.host
  | [] => by intro n hn; simp at hn
  | x :: l => by
    intro n hn
    rw [keepFirstByHost]
    rcases List.mem_cons.mp hn with h | h
    · exact ⟨x, List.mem_cons_self _ _, by rw [h]⟩
    · by_cases hx : n.host = x.host
      · exact ⟨x, List.mem_cons_self _ _, hx.symm⟩
      · have hnf : n ∈ l.filter (fun m => ¬(m.host == x.host)) := by
          refine List.mem_filter.mpr ⟨h, ?_⟩
          simp [hx]
        obtain ⟨m, hm, hmh⟩ := keepFirst_complete _ n hnf
        exact ⟨m, List.mem_cons_of_mem x hm, hmh⟩
termination_by l => l.length
decreasing_by
  simp only [List.length_cons]
  exact Nat.lt_succ_of_le (List.length_filter_le _ _)

/-- C6.  Run host list construction: the `parse_run` loop keeps exactly the
first resolved node of each host string in insertion order (a sublist with
pairwise-distinct hosts covering every resolved host), and an empty resolution
yields exactly the one synthetic localhost node with empty vars, no
remote_user, `become` false and no actions. -/
theorem c6_run_host_list :
    (∀ l : List Node, dedupHosts l = keepFirstByHost l)
    ∧ (∀ l : List Node, (parse_run_hosts l).Pairwise (fun a b => a.host ≠ b.host))
    ∧ (∀ l : List Node, List.Sublist (dedupHosts l) l)
    ∧ (∀ l : List Node, ∀ n ∈ l, ∃ m, m ∈ dedupHosts l ∧ m.host = n.host)
    ∧ (parse_run_hosts [] = [localhostNode]
       ∧ localhostNode.host = "localhost" ∧ localhostNode.vars = []
       ∧ localhostNode.remote_user = none ∧ localhostNode.become_ = false
       ∧ localhostNode.actions = [])
    ∧ (∀ l : List Node, l ≠ [] → parse_run_hosts l = dedupHosts l) := by
  have hnonempty : ∀ l : List Node, l ≠ [] → dedupHosts l ≠ [] := by
    intro l hl
    cases l with
    | nil => exact absurd rfl hl
    | cons x l =>
      rw [dedupHosts_eq_keepFirst]
      obtain ⟨m, hm, _⟩ := keepFirst_complete (x :: l) x (List.mem_cons_self x l)
      exact List.ne_nil_of_mem hm
  refine ⟨dedupHosts_eq_keepFirst, ?_, ?_, ?_, ⟨rfl, rfl, rfl, rfl, rfl, rfl⟩, ?_⟩
  · intro l
    cases l with
    | nil => simp [parse_run_hosts, dedupHosts, localhostNode]
    | cons x rest =>
      have hne := hnonempty (x :: rest) (by simp)
      simp only [parse_run_hosts]
      rw [if_neg (by simpa [List.isEmpty_iff] using hne)]
      rw [dedupHosts_eq_keepFirst]
      exact keepFirst_pairwise _
  · intro l
    rw [dedupHosts_eq_keepFirst]
    exact keepFirst_sublist l
  · intro l n hn
    rw [dedupHosts_eq_keepFirst]
    exact keepFirst_complete l n hn
  · intro l hl
    simp only [parse_run_hosts]
    rw [if_neg (by simpa [List.isEmpty_iff] using hnonempty l hl)]

/-- C6 witness: a duplicate host is dropped and a nonempty list keeps its
first node. -/
theorem c6_run_host_list_witness :
    (⟨0, "a", [], none, false, []⟩ : Node) ∈
      dedupHosts [⟨0, "a", [], none, false, []⟩, ⟨1, "a", [], none, false, []⟩]
    ∧ parse_run_hosts [⟨0, "a", [], none, false, []⟩] = [⟨0, "a", [], none, false, []⟩] := by
  constructor
  · have h := c6_run_host_list.1
      [⟨0, "a", [], none, false, []⟩, ⟨1, "a", [], none, false, []⟩]
    rw [h, keepFirstByHost]
    exact List.mem_cons_self _ _
  · exact c6_run_host_list.2.2.2.2.2 [⟨0, "a", [], none, false, []⟩] (by simp)

/- ===== C3: variable layering ===== -/

/-- Helper: lookup prefers the earlier (inner) binding across an append. -/
theorem lookupA_append_left {α : Type} (l1 l2 : List (String × α)) (k : String) (v : α)
    (h : lookupA l1 k = some v) : lookupA (l1 ++ l2) k = some v := by
  induction l1 with
  | nil => simp [lookupA] at h
  | cons p rest ih =>
    obtain ⟨k', v'⟩ := p
    by_cases hk : k' = k
    · subst hk
      simp [lookupA] at h ⊢
      exact h
    · simp [lookupA, hk] at h ⊢
      exact ih h

/-- C3 counterexample.  A group whose own vars set `become = true` around a
host entry without vars: the resolved node carries `become` in its vars but
its dedicated `become_` field stays `false` — the outer-layer overlay loop
only promotes `remote_user`, so `become` appearing at an enclosing layer is
not promoted, contrary to the claim. -/
theorem c3_counterexample :
    hosts_from_group 2
        (RbkInv.mk [("g", ⟨[⟨.host "h", []⟩], [("become", HclValue.bool true)], none⟩)] []) "g"
      = some (.ok [{ id := 0, host := "h", vars := [("become", HclValue.bool true)],
                     remote_user := none, become_ := false, actions := [] }])
    ∧ ({ id := 0, host := "h", vars := [("become", HclValue.bool true)],
         remote_user := none, become_ := false, actions := [] } : Node).become_ = false
    ∧ lookupA [("become", HclValue.bool true)] "become" = some (HclValue.bool true) := by
  refine ⟨?_, rfl, rfl⟩
  rw [show (2 : Nat) = 1 + 1 from rfl]
  simp [hosts_from_group, groupEntriesHosts, lookupA, RbkInv.groups, RbkInv.imports,
    Node.new, fillVars, fillVar]

/-- C3 amended.  Variable layering in `hosts_from_group`: the innermost scope
wins (an outer layer never overwrites a key already on the node), the entry's
own vars promote `remote_user` (string) and `become` (bool) through
`Node::new`, and the outer-layer overlay loop promotes only `remote_user` —
a `become` first appearing at an enclosing layer lands in the vars map but
never in the dedicated field.  The bob/alice example resolves accordingly. -/
theorem c3_variable_layering :
    (∀ (node : Node) (outer : List (String × HclValue)) (k : String) (v : HclValue),
      lookupA node.vars k = some v → lookupA (fillVars node outer).vars k = some v)
    ∧ (∀ (node : Node) (outer : List (String × HclValue)),
      (fillVars node outer).become_ = node.become_)
    ∧ (∀ (node : Node) (outer : List (String × HclValue)) (u : String),
      node.remote_user = some u → (fillVars node outer).remote_user = some u)
    ∧ (∀ (host : String) (vars : List (String × HclValue)),
      (Node.new host vars).remote_user
        = (lookupA vars "remote_user").bind (fun v =>
            match v with
            | .str s => some s
            | _ => none)
      ∧ (Node.new host vars).become_
        = (match lookupA vars "become" with
           | some (.bool b) => b
           | _ => false))
    ∧ hosts_from_group 2
        (RbkInv.mk [("g",
          ⟨[⟨.host "b", [("remote_user", HclValue.str "bob")]⟩, ⟨.host "c", []⟩],
           [("remote_user", HclValue.str "alice")], none⟩)] []) "g"
      = some (.ok
          [{ id := 0, host := "b", vars := [("remote_user", HclValue.str "bob")],
             remote_user := some "bob", become_ := false, actions := [] },
           { id := 0, host := "c", vars := [("remote_user", HclValue.str "alice")],
             remote_user := some "alice", become_ := false, actions := [] }]) := by
  have hfill_vars : ∀ (outer : List (String × HclValue)) (node : Node) (k : String)
      (v : HclValue), lookupA node.vars k = some v →
      lookupA (fillVars node outer).vars k = some v := by
    intro outer
    induction outer with
    | nil => intro node k v h; exact h
    | cons kv rest ih =>
      intro node k v h
      simp only [fillVars, List.foldl_cons]
      by_cases hpresent : (lookupA node.vars kv.1).isSome
      · rw [show fillVar node kv = node by simp [fillVar, hpresent]]
        exact ih node k v h
      · have : fillVar node kv
            = { (if kv.1 = "remote_user" ∧ node.remote_user = none then
                  { node with remote_user :=
                      match kv.2 with
                      | .str s => some s
                      | _ => none }
                else node) with
                vars := (if kv.1 = "remote_user" ∧ node.remote_user = none then
                  { node with remote_user :=
                      match kv.2 with
                      | .str s => some s
                      | _ => none }
                else node).vars ++ [kv] } := by
          simp [fillVar, hpresent]
        rw [this]
        refine ih _ k v ?_
        by_cases hcase : kv.1 = "remote_user" ∧ node.remote_user = none
        · simp only [if_pos hcase]
          exact lookupA_append_left _ _ _ _ h
        · simp only [if_neg hcase]
          exact lookupA_append_left _ _ _ _ h
  have hfill_become : ∀ (outer : List (String × HclValue)) (node : Node),
      (fillVars node outer).become_ = node.become_ := by
    intro outer
    induction outer with
    | nil => intro node; rfl
    | cons kv rest ih =>
      intro node
      have hstep : (fillVar node kv).become_ = node.become_ := by
        simp only [fillVar]
        split
        · rfl
        · split <;> rfl
      exact (ih (fillVar node kv)).trans hstep
  have hfill_ru : ∀ (outer : List (String × HclValue)) (node : Node) (u : String),
      node.remote_user = some u → (fillVars node outer).remote_user = some u := by
    intro outer
    induction outer with
    | nil => intro node u h; exact h
    | cons kv rest ih =>
      intro node u h
      simp only [fillVars, List.foldl_cons]
      have : (fillVar node kv).remote_user = some u := by
        by_cases hpresent : (lookupA node.vars kv.1).isSome
        · simp [fillVar, hpresent, h]
        · have hcase : ¬(kv.1 = "remote_user" ∧ node.remote_user = none) := by
            rintro ⟨-, hnone⟩
            rw [h] at hnone
            cases hnone
          simp [fillVar, hpresent, hcase, h]
      exact ih (fillVar node kv) u this
  refine ⟨fun node outer => hfill_vars outer node, fun node outer => hfill_become outer node,
    fun node outer => hfill_ru outer node, fun host vars => ⟨rfl, ?_⟩, ?_⟩
  · simp only [Node.new]
    cases lookupA vars "become" with
    | none => rfl
    | some v => cases v <;> rfl
  · rw [show (2 : Nat) = 1 + 1 from rfl]
    simp [hosts_from_group, groupEntriesHosts, lookupA, RbkInv.groups, RbkInv.imports,
      Node.new, fillVars, fillVar]

/-- C3 amended witness: the layering facts at concrete inputs. -/
theorem c3_variable_layering_witness :
    lookupA (fillVars ⟨0, "h", [("k", HclValue.num 1)], none, false, []⟩
        [("k", HclValue.num 2)]).vars "k" = some (HclValue.num 1)
    ∧ (fillVars ⟨0, "h", [], some "u", false, []⟩
        [("remote_user", HclValue.str "w")]).remote_user = some "u" := by
  constructor
  · exact c3_variable_layering.1 _ [("k", HclValue.num 2)] "k" (HclValue.num 1) rfl
  · exact c3_variable_layering.2.2.1 _ [("remote_user", HclValue.str "w")] "u" rfl

/- ===== C2: job recursion cap ===== -/

/-- Helper: the shipped hcl `parse_actions` has no depth counter, so expanding
the self-recursive job "x" runs out of any finite call stack. -/
theorem parse_actions_jobX_diverges :
    ∀ (fuel : Nat) (catalog : List (String × CatalogAction)),
    parse_actions catalog fuel rbX jobBlockX = none := by
  intro fuel
  induction fuel with
  | zero => intro catalog; simp [parse_actions]
  | succ fuel ih =>
    intro catalog
    have ihx := ih catalog
    simp only [rbX, jobBlockX, actionBlockX, paramsBlockX] at ihx
    simp [parse_actions, parseActionsBody, parseOneAction, jobBlockX, actionBlockX,
      paramsBlockX, rbX, findNameAttr, findParamsBlock, attrsOfBlock, insertA, lookupA,
      PBlock.body, PBlock.ident, PBlock.labels, PRunbook.jobs, PRunbook.imports, ihx]

/-- Helper: the depth-capped variant errors out on the same job at every
starting depth. -/
theorem parse_actions_capped_jobX (catalog : List (String × CatalogAction)) :
    ∀ d : Nat, parse_actions_capped catalog d rbX jobBlockX
      = .error ⟨"job name might have a endless loop here", none⟩
  | d => by
    by_cases h : 500 < d + 1
    · simp only [parse_actions_capped, parseActionsCappedBody, parseOneActionCapped,
        jobBlockX, actionBlockX, paramsBlockX, rbX, findNameAttr, findParamsBlock,
        attrsOfBlock, insertA, lookupA, PBlock.body, PBlock.ident, PBlock.labels,
        PRunbook.jobs, PRunbook.imports]
      simp [findNameAttr, findParamsBlock, insertA, lookupA, h]
    · have ihx := parse_actions_capped_jobX catalog (d + 1)
      simp only [rbX, jobBlockX, actionBlockX, paramsBlockX] at ihx
      simp only [parse_actions_capped, PBlock.body] at ihx
      simp only [parse_actions_capped, parseActionsCappedBody, parseOneActionCapped,
        jobBlockX, actionBlockX, paramsBlockX, rbX, findNameAttr, findParamsBlock,
        attrsOfBlock, insertA, lookupA, PBlock.body, PBlock.ident, PBlock.labels,
        PRunbook.jobs, PRunbook.imports]
      simp [findNameAttr, findParamsBlock, insertA, lookupA, h]
      rw [ihx]
termination_by d => 501 - d
decreasing_by omega

/-- C2.  On the self-recursive runbook (`job "x"` invoking job "x", reached
from a run), the shipped `parse_actions` recurses without bound — no fuel
(call stack) suffices, whatever the catalog — while the depth-capped variant
kept in the same file (and still called by `Run::from_runbook` in run.rs)
stops with the config error `job name might have a endless loop here`. -/
theorem c2_job_recursion_cap :
    (∀ (catalog : List (String × CatalogAction)) (fuel : Nat),
      parse_actions catalog fuel rbX runBlockX = none)
    ∧ (∀ catalog : List (String × CatalogAction),
      parse_actions_capped catalog 0 rbX runBlockX
        = .error ⟨"job name might have a endless loop here", none⟩) := by
  constructor
  · intro catalog fuel
    cases fuel with
    | zero => simp [parse_actions]
    | succ fuel =>
      have ihx := parse_actions_jobX_diverges fuel catalog
      simp only [rbX] at ihx
      simp [parse_actions, parseActionsBody, parseOneAction, runBlockX, actionBlockX,
        paramsBlockX, rbX, findNameAttr, findParamsBlock, attrsOfBlock, insertA, lookupA,
        PBlock.body, PBlock.ident, PBlock.labels, PRunbook.jobs, PRunbook.imports]
      rw [ihx]
  · intro catalog
    have ihx := parse_actions_capped_jobX catalog 1
    simp only [rbX, jobBlockX, actionBlockX, paramsBlockX] at ihx
    simp only [parse_actions_capped, PBlock.body] at ihx
    simp only [parse_actions_capped, parseActionsCappedBody, parseOneActionCapped,
      runBlockX, jobBlockX, actionBlockX, paramsBlockX, rbX, findNameAttr,
      findParamsBlock, attrsOfBlock, insertA, lookupA, PBlock.body, PBlock.ident,
      PBlock.labels, PRunbook.jobs, PRunbook.imports]
    simp [findNameAttr, findParamsBlock, insertA, lookupA]
    rw [ihx]

/- ===== C9: payload round-trip ===== -/

theorem leBytes_length : ∀ (k n : Nat), (leBytes k n).length = k
  | 0, _ => rfl
  | k + 1, n => by simp [leBytes, leBytes_length k]

theorem readLE_leBytes : ∀ (k n : Nat), n < 256 ^ k → readLE (leBytes k n) = n
  | 0, n, h => by
    simp [Nat.pow_zero] at h
    simp [leBytes, readLE, h]
  | k + 1, n, h => by
    have hdiv : n / 256 < 256 ^ k := by
      rw [Nat.div_lt_iff_lt_mul (by norm_num)]
      calc n < 256 ^ (k + 1) := h
        _ = 256 ^ k * 256 := by ring
    simp [leBytes, readLE, readLE_leBytes k (n / 256) hdiv]
    omega

/-- Helper: the bincode length-prefixed byte-sequence encoding decodes back
exactly, leaving the remaining input untouched. -/
theorem decBytes_encBytes (bs rest : List Nat) (h : bs.length < 256 ^ 8) :
    decBytes (encBytes bs ++ rest) = some (bs, rest) := by
  have hlen : (leBytes 8 bs.length).length = 8 := leBytes_length 8 _
  have hs : encBytes bs ++ rest = leBytes 8 bs.length ++ (bs ++ rest) := by
    simp [encBytes, List.append_assoc]
  have htake : (leBytes 8 bs.length ++ (bs ++ rest)).take 8 = leBytes 8 bs.length := by
    rw [← hlen]
    exact List.take_left _ _
  have hdrop : (leBytes 8 bs.length ++ (bs ++ rest)).drop 8 = bs ++ rest := by
    rw [← hlen]
    exact List.drop_left _ _
  have hread : readLE (leBytes 8 bs.length) = bs.length := readLE_leBytes 8 _ h
  have h8 : 8 ≤ (leBytes 8 bs.length ++ (bs ++ rest)).length := by
    simp [hlen]
  rw [hs]
  simp only [decBytes, htake, hdrop, hread]
  rw [if_pos h8, if_pos (by simp : bs.length ≤ (bs ++ rest).length)]
  simp

/-- Helper: the u32 enum tag of `FileState` decodes back. -/
theorem decodeFileState_roundtrip (st : FileState) (rest : List Nat) :
    decodeFileState (leBytes 4 st.variantIndex ++ rest) = some (st, rest) := by
  have hlen : (leBytes 4 st.variantIndex).length = 4 := leBytes_length 4 _
  have htake : (leBytes 4 st.variantIndex ++ rest).take 4 = leBytes 4 st.variantIndex := by
    rw [← hlen]
    exact List.take_left _ _
  have hdrop : (leBytes 4 st.variantIndex ++ rest).drop 4 = rest := by
    rw [← hlen]
    exact List.drop_left _ _
  have h4 : 4 ≤ (leBytes 4 st.variantIndex ++ rest).length := by simp [hlen]
  have hread : readLE (leBytes 4 st.variantIndex) = st.variantIndex :=
    readLE_leBytes 4 _ (by cases st <;> simp [FileState.variantIndex])
  simp only [decodeFileState, htake, hdrop, hread]
  rw [if_pos h4]
  cases st <;> rfl

/-- Helper: a compiled copy payload decodes in `execute` to the same struct. -/
theorem decodeCopy_encodeCopy (c : CopyActionData)
    (h1 : c.src.length < 256 ^ 8) (h2 : c.content.length < 256 ^ 8)
    (h3 : c.dest.length < 256 ^ 8) :
    decodeCopyAction (encodeCopyAction c) = some (c, []) := by
  have hs : encodeCopyAction c
      = encBytes c.src ++ (encBytes c.content ++ (encBytes c.dest ++ [])) := by
    simp [encodeCopyAction]
  rw [hs]
  simp only [decodeCopyAction, decBytes_encBytes c.src _ h1,
    decBytes_encBytes c.content _ h2, decBytes_encBytes c.dest _ h3]
  simp

/-- Helper: a compiled file payload decodes in `execute` to the same struct. -/
theorem decodeFile_encodeFile (f : FileActionData) (h : f.path.length < 256 ^ 8) :
    decodeFileAction (encodeFileAction f) = some (f, []) := by
  have hs : encodeFileAction f
      = encBytes f.path ++ (leBytes 4 f.state.variantIndex ++ []) := by
    simp [encodeFileAction]
  rw [hs]
  simp only [decodeFileAction, decBytes_encBytes f.path _ h,
    decodeFileState_roundtrip f.state []]
  simp

/-- C9.  Payload round-trip: for every `copy` and `file` payload struct the
compile-side bincode serialization decodes on the execute side to the
identical struct; moreover the compile steps produce exactly those
serializations — shown for `file` with `path="/t"`, `state="directory"` and
for `copy` of a file containing "hello". -/
theorem c9_payload_roundtrip :
    (∀ c : CopyActionData, c.src.length < 256 ^ 8 → c.content.length < 256 ^ 8 →
      c.dest.length < 256 ^ 8 → decodeCopyAction (encodeCopyAction c) = some (c, []))
    ∧ (∀ f : FileActionData, f.path.length < 256 ^ 8 →
      decodeFileAction (encodeFileAction f) = some (f, []))
    ∧ fileActionInput (some (.dict [("path", .str "/t" none),
        ("state", .str "directory" none)] none))
      = .ok (encodeFileAction ⟨strBytes "/t", .directory⟩)
    ∧ copyActionInput (fun _ => some [104, 101, 108, 108, 111]) "w"
        (some (.dict [("src", .str "./a.txt" none), ("dest", .str "/tmp/a.txt" none)] none))
      = .ok (encodeCopyAction
          ⟨strBytes "w/./a.txt", [104, 101, 108, 108, 111], strBytes "/tmp/a.txt"⟩)
    ∧ decodeCopyAction (encodeCopyAction
          ⟨strBytes "w/./a.txt", [104, 101, 108, 108, 111], strBytes "/tmp/a.txt"⟩)
      = some (⟨strBytes "w/./a.txt", [104, 101, 108, 108, 111], strBytes "/tmp/a.txt"⟩, []) := by
  refine ⟨decodeCopy_encodeCopy, decodeFile_encodeFile, ?_, ?_, ?_⟩
  · simp [fileActionInput, lookupA]
  · simp [copyActionInput, lookupA]
  · exact decodeCopy_encodeCopy _ (by simp [strBytes]) (by norm_num) (by simp [strBytes])

/-- C9 witness: the round-trips at concrete one-byte payload fields. -/
theorem c9_payload_roundtrip_witness :
    decodeCopyAction (encodeCopyAction ⟨[1], [2, 3], [4]⟩) = some (⟨[1], [2, 3], [4]⟩, [])
    ∧ decodeFileAction (encodeFileAction ⟨[47, 116], .absent⟩)
      = some (⟨[47, 116], .absent⟩, []) := by
  constructor
  · exact c9_payload_roundtrip.1 ⟨[1], [2, 3], [4]⟩ (by norm_num) (by norm_num) (by norm_num)
  · exact c9_payload_roundtrip.2.1 ⟨[47, 116], .absent⟩ (by norm_num)

/- ===== C4/C10 machinery: byte-level lemmas ===== -/

theorem skipWs_not_ws (b : Nat) (rest : List Nat) (h : isWsByte b = false) :
    skipWs (b :: rest) = b :: rest := by
  simp [skipWs, h]

theorem hexVal_hexDigit (d : Nat) (h : d < 16) : hexVal (hexDigit d) = some d := by
  by_cases h10 : d < 10
  · have hd : hexDigit d = 48 + d := by simp [hexDigit, h10]
    rw [hd]
    simp only [hexVal]
    rw [if_pos (by omega)]
    congr 1
    omega
  · have hd : hexDigit d = 87 + d := by simp [hexDigit, h10]
    rw [hd]
    simp only [hexVal]
    rw [if_neg (by omega), if_pos (by omega)]
    congr 1
    omega

theorem utf8Enc_small (b : Nat) (h : b < 128) : utf8Enc b = [b] := by
  simp [utf8Enc, h]

theorem hexDigit_ge (d : Nat) : 48 ≤ hexDigit d := by
  simp only [hexDigit]
  split <;> omega

/-- The escaper inverts through the string-body parser byte by byte. -/
theorem parseStringBody_escape :
    ∀ (s rest : List Nat), parseStringBody (escBytes s ++ (34 :: rest)) = some (s, rest) := by
  intro s
  induction s with
  | nil =>
    intro rest
    rw [show escBytes [] = [] from rfl, List.nil_append, parseStringBody.eq_def]
    simp
  | cons b s ih =>
    intro rest
    have hesc : escBytes (b :: s) = escByte b ++ escBytes s := by
      simp [escBytes]
    rw [hesc, List.append_assoc]
    by_cases h34 : b = 34
    · subst h34
      rw [show escByte 34 = [92, 34] from rfl, parseStringBody.eq_def]
      simp [ih rest]
    · by_cases h92 : b = 92
      · subst h92
        rw [show escByte 92 = [92, 92] from rfl, parseStringBody.eq_def]
        simp [ih rest]
      · by_cases h8 : b = 8
        · subst h8
          rw [show escByte 8 = [92, 98] from rfl, parseStringBody.eq_def]
          simp [ih rest]
        · by_cases h9 : b = 9
          · subst h9
            rw [show escByte 9 = [92, 116] from rfl, parseStringBody.eq_def]
            simp [ih rest]
          · by_cases h10 : b = 10
            · subst h10
              rw [show escByte 10 = [92, 110] from rfl, parseStringBody.eq_def]
              simp [ih rest]
            · by_cases h12 : b = 12
              · subst h12
                rw [show escByte 12 = [92, 102] from rfl, parseStringBody.eq_def]
                simp [ih rest]
              · by_cases h13 : b = 13
                · subst h13
                  rw [show escByte 13 = [92, 114] from rfl, parseStringBody.eq_def]
                  simp [ih rest]
                · by_cases hctl : b < 32
                  · have hescb : escByte b
                        = [92, 117, 48, 48, hexDigit (b / 16), hexDigit (b % 16)] := by
                      simp [escByte, h34, h92, h8, h9, h10, h12, h13, hctl]
                    rw [hescb, parseStringBody.eq_def]
                    have hv3 : hexVal (hexDigit (b / 16)) = some (b / 16) :=
                      hexVal_hexDigit _ (by omega)
                    have hv4 : hexVal (hexDigit (b % 16)) = some (b % 16) :=
                      hexVal_hexDigit _ (by omega)
                    have harith : b / 16 * 16 + b % 16 = b := by omega
                    simp [show hexVal 48 = some 0 from rfl, hv3, hv4, ih rest, harith,
                      utf8Enc_small b (by omega)]
                  · have hescb : escByte b = [b] := by
                      simp [escByte, h34, h92, h8, h9, h10, h12, h13, hctl]
                    rw [hescb, parseStringBody.eq_def]
                    simp [h34, h92, hctl, ih rest]

theorem escByte_no_newline (b : Nat) : (10 : Nat) ∉ escByte b := by
  have h3 := hexDigit_ge (b / 16)
  have h4 := hexDigit_ge (b % 16)
  simp only [escByte]
  split_ifs <;> simp <;> omega

theorem escBytes_no_newline (s : List Nat) : (10 : Nat) ∉ escBytes s := by
  induction s with
  | nil => simp [escBytes]
  | cons b s ih =>
    simp only [escBytes, List.map_cons, List.flatten_cons]
    intro hmem
    rcases List.mem_append.mp hmem with h | h
    · exact escByte_no_newline b h
    · exact ih (by simpa [escBytes] using h)

theorem natDigits_digits : ∀ n : Nat, ∀ b ∈ natDigits n, isDigitByte b = true
  | n => by
    by_cases h : n < 10
    · intro b hb
      rw [natDigits, dif_pos h] at hb
      simp at hb
      subst hb
      simp [isDigitByte]
      omega
    · intro b hb
      rw [natDigits, dif_neg h] at hb
      rcases List.mem_append.mp hb with h1 | h1
      · exact natDigits_digits (n / 10) b h1
      · simp at h1
        subst h1
        simp [isDigitByte]
        omega
termination_by n => n
decreasing_by exact Nat.div_lt_self (by omega) (by omega)

theorem natDigits_ne_nil : ∀ n : Nat, natDigits n ≠ [] := by
  intro n
  by_cases h : n < 10
  · rw [natDigits, dif_pos h]
    simp
  · rw [natDigits, dif_neg h]
    simp

theorem digitsToNat_append_digit (l : List Nat) (d : Nat) :
    digitsToNat (l ++ [d]) = digitsToNat l * 10 + (d - 48) := by
  simp [digitsToNat, List.foldl_append]

theorem digitsToNat_natDigits : ∀ n : Nat, digitsToNat (natDigits n) = n
  | n => by
    by_cases h : n < 10
    · rw [natDigits, dif_pos h]
      simp only [digitsToNat, List.foldl_cons, List.foldl_nil]
      omega
    · rw [natDigits, dif_neg h]
      rw [digitsToNat_append_digit, digitsToNat_natDigits (n / 10)]
      omega
termination_by n => n
decreasing_by exact Nat.div_lt_self (by omega) (by omega)

theorem takeWhile_append_all {α : Type} (p : α → Bool) (l r : List α)
    (h : ∀ x ∈ l, p x = true) : (l ++ r).takeWhile p = l ++ r.takeWhile p := by
  induction l with
  | nil => simp
  | cons a l ih =>
    simp only [List.cons_append, List.takeWhile_cons, h a (List.mem_cons_self a l)]
    rw [ih (fun x hx => h x (List.mem_cons_of_mem a hx))]
    simp

theorem dropWhile_append_all {α : Type} (p : α → Bool) (l r : List α)
    (h : ∀ x ∈ l, p x = true) : (l ++ r).dropWhile p = r.dropWhile p := by
  induction l with
  | nil => simp
  | cons a l ih =>
    simp only [List.cons_append, List.dropWhile_cons, h a (List.mem_cons_self a l)]
    simp only [if_true]
    exact ih (fun x hx => h x (List.mem_cons_of_mem a hx))

theorem readLine_of_no_newline (l r : List Nat) (h : (10 : Nat) ∉ l) :
    readLine (l ++ 10 :: r) = (l ++ [10], r) := by
  induction l with
  | nil => simp [readLine]
  | cons b l ih =>
    have hb : b ≠ 10 := fun hb => h (hb ▸ List.mem_cons_self b l)
    simp only [List.cons_append, readLine, hb, if_false, List.append_eq]
    rw [ih (fun hm => h (List.mem_cons_of_mem b hm))]

/- ===== C4/C10 machinery: render-level lemmas ===== -/

mutual

theorem renderJson_no_nl : ∀ j : Json, goodJson j = true → (10 : Nat) ∉ renderJson j
  | .null, _ => by simp [renderJson]
  | .bool b, _ => by cases b <;> simp [renderJson]
  | .num lex, h => by
    simp only [goodJson, Bool.and_eq_true, List.all_eq_true] at h
    simp only [renderJson]
    intro hmem
    have := h.2 10 hmem
    simp [isDigitByte] at this
  | .str s, _ => by
    simp only [renderJson]
    intro hmem
    simp only [List.mem_cons, List.mem_append] at hmem
    rcases hmem with h1 | h1 | h1
    · exact absurd h1 (by decide)
    · exact escBytes_no_newline s h1
    · simp at h1
  | .arr xs, h => by
    simp only [renderJson]
    intro hmem
    simp only [List.mem_cons, List.mem_append] at hmem
    rcases hmem with h1 | h1 | h1
    · exact absurd h1 (by decide)
    · exact renderElems_no_nl xs (by simpa [goodJson] using h) h1
    · simp at h1
  | .obj ms, h => by
    simp only [renderJson]
    intro hmem
    simp only [List.mem_cons, List.mem_append] at hmem
    rcases hmem with h1 | h1 | h1
    · exact absurd h1 (by decide)
    · exact renderMembers_no_nl ms (by simpa [goodJson] using h) h1
    · simp at h1

theorem renderElems_no_nl : ∀ xs : JsonList, goodElems xs = true → (10 : Nat) ∉ renderElems xs
  | .nil, _ => by simp [renderElems]
  | .cons x .nil, h => by
    simp only [goodElems, Bool.and_eq_true] at h
    simp only [renderElems]
    exact renderJson_no_nl x h.1
  | .cons x (.cons y tl), h => by
    simp only [goodElems, Bool.and_eq_true] at h
    simp only [renderElems]
    intro hmem
    simp only [List.mem_cons, List.mem_append] at hmem
    rcases hmem with h1 | h1 | h1
    · exact renderJson_no_nl x h.1 h1
    · exact absurd h1 (by decide)
    · exact renderElems_no_nl (.cons y tl)
        (by simp [goodElems, h.2.1, h.2.2]) h1

theorem renderMembers_no_nl :
    ∀ ms : JsonMembers, goodMembers ms = true → (10 : Nat) ∉ renderMembers ms
  | .nil, _ => by simp [renderMembers]
  | .cons k v .nil, h => by
    simp only [goodMembers, Bool.and_eq_true] at h
    have hA := escBytes_no_newline k
    have hB := renderJson_no_nl v h.1
    simp [renderMembers, List.mem_cons, List.mem_append, hA, hB]
  | .cons k v (.cons k2 v2 tl), h => by
    simp only [goodMembers, Bool.and_eq_true] at h
    have hA := escBytes_no_newline k
    have hB := renderJson_no_nl v h.1
    have hC := renderMembers_no_nl (.cons k2 v2 tl)
      (by simp [goodMembers, h.2.1, h.2.2])
    simp [renderMembers, List.mem_cons, List.mem_append, hA, hB, hC]

end

/-- Helper: a rendered good document starts with a byte that is not
whitespace and not a closing/separator byte. -/
theorem renderJson_head (j : Json) (h : goodJson j = true) :
    ∃ b t, renderJson j = b :: t ∧ isWsByte b = false
      ∧ b ≠ 93 ∧ b ≠ 125 ∧ b ≠ 44 ∧ b ≠ 58 := by
  cases j with
  | null => exact ⟨110, [117, 108, 108], by simp [renderJson], by decide, by decide,
      by decide, by decide, by decide⟩
  | bool b =>
    cases b
    · exact ⟨102, [97, 108, 115, 101], by simp [renderJson], by decide, by decide,
        by decide, by decide, by decide⟩
    · exact ⟨116, [114, 117, 101], by simp [renderJson], by decide, by decide,
        by decide, by decide, by decide⟩
  | num lex =>
    simp only [goodJson, Bool.and_eq_true, List.all_eq_true] at h
    cases lex with
    | nil => simp at h
    | cons b t =>
      have hd := h.2 b (List.mem_cons_self b t)
      simp only [isDigitByte, Bool.and_eq_true, decide_eq_true_eq] at hd
      refine ⟨b, t, by simp [renderJson], ?_, ?_, ?_, ?_, ?_⟩
      · simp [isWsByte]
        omega
      · omega
      · omega
      · omega
      · omega
  | str s => exact ⟨34, escBytes s ++ [34], by simp [renderJson], by decide, by decide,
      by decide, by decide, by decide⟩
  | arr xs => exact ⟨91, renderElems xs ++ [93], by simp [renderJson], by decide,
      by decide, by decide, by decide, by decide⟩
  | obj ms => exact ⟨123, renderMembers ms ++ [125], by simp [renderJson], by decide,
      by decide, by decide, by decide, by decide⟩

/-- Helper: skipping whitespace leaves a rendered good document alone. -/
theorem skipWs_render (j : Json) (h : goodJson j = true) (r : List Nat) :
    skipWs (renderJson j ++ r) = renderJson j ++ r := by
  obtain ⟨b, t, heq, hws, -, -, -, -⟩ := renderJson_head j h
  rw [heq, List.cons_append]
  exact skipWs_not_ws b _ hws

theorem renderElems_cons (x : Json) (tl : JsonList) :
    renderElems (.cons x tl) = renderJson x ++ elemsTailRender tl := by
  cases tl with
  | nil => simp [renderElems, elemsTailRender]
  | cons y tl => simp [renderElems, elemsTailRender]

theorem renderMembers_cons (k : List Nat) (v : Json) (tl : JsonMembers) :
    renderMembers (.cons k v tl)
      = 34 :: ((escBytes k ++ [34]) ++ 58 :: (renderJson v ++ membersTailRender tl)) := by
  cases tl with
  | nil => simp [renderMembers, membersTailRender]
  | cons k2 v2 tl => simp [renderMembers, membersTailRender]

theorem needElemsTail_eq : ∀ xs : JsonList, needElemsTail xs = needElems xs
  | .nil => rfl
  | .cons x tl => by simp [needElemsTail, needElems, needElemsTail_eq tl]

theorem needMembersTail_eq : ∀ ms : JsonMembers, needMembersTail ms = needMembers ms
  | .nil => rfl
  | .cons k v tl => by simp [needMembersTail, needMembers, needMembersTail_eq tl]

mutual

theorem needJ_le : ∀ j : Json, needJ j ≤ (renderJson j).length
  | .null => by simp [needJ, renderJson]
  | .bool b => by cases b <;> simp [needJ, renderJson]
  | .num lex => by simp [needJ]
  | .str s => by simp [needJ]
  | .arr xs => by
    have h := needElems_le xs
    simp only [needJ, renderJson, List.length_cons, List.length_append]
    simp
    omega
  | .obj ms => by
    have h := needMembers_le ms
    simp only [needJ, renderJson, List.length_cons, List.length_append]
    simp
    omega

theorem needElems_le : ∀ xs : JsonList, needElems xs ≤ (renderElems xs).length + 1
  | .nil => by simp [needElems, renderElems]
  | .cons x .nil => by
    have h := needJ_le x
    simp only [needElems, needElemsTail, renderElems]
    omega
  | .cons x (.cons y tl) => by
    have h1 := needJ_le x
    have h2 := needElems_le (.cons y tl)
    have e1 : needElems (.cons x (.cons y tl))
        = 1 + needJ x + needElems (.cons y tl) := by
      simp [needElems, needElemsTail_eq]
    have e2 : (renderElems (.cons x (.cons y tl))).length
        = (renderJson x).length + 1 + (renderElems (.cons y tl)).length := by
      simp only [renderElems, List.length_append, List.length_cons]
      omega
    omega

theorem needMembers_le : ∀ ms : JsonMembers, needMembers ms ≤ (renderMembers ms).length + 1
  | .nil => by simp [needMembers, renderMembers]
  | .cons k v .nil => by
    have h := needJ_le v
    simp only [needMembers, needMembersTail, renderMembers, List.length_cons,
      List.length_append]
    omega
  | .cons k v (.cons k2 v2 tl) => by
    have h1 := needJ_le v
    have h2 := needMembers_le (.cons k2 v2 tl)
    have e1 : needMembers (.cons k v (.cons k2 v2 tl))
        = 1 + needJ v + needMembers (.cons k2 v2 tl) := by
      simp [needMembers, needMembersTail_eq]
    have e2 : (renderMembers (.cons k v (.cons k2 v2 tl))).length
        = (escBytes k).length + 4 + (renderJson v).length
          + (renderMembers (.cons k2 v2 tl)).length := by
      simp only [renderMembers, List.length_cons, List.length_append, List.length_nil]
      omega
    omega

end

/-- Helper: a byte that cannot continue a number lexeme keeps any value
`restSafe`. -/
theorem restSafe_cons (j : Json) (b : Nat) (r : List Nat) (h : isNumCont b = false) :
    restSafe j (b :: r) := by
  cases j with
  | num lex =>
    intro b2 hb2
    simp only [List.head?_cons, Option.some.injEq] at hb2
    rw [← hb2]
    exact h
  | null => trivial
  | bool v => trivial
  | str s => trivial
  | arr xs => trivial
  | obj ms => trivial

theorem restSafe_elemsTail (j : Json) (tl : JsonList) (r : List Nat) :
    restSafe j (elemsTailRender tl ++ 93 :: r) := by
  cases tl with
  | nil => exact restSafe_cons j 93 r (by decide)
  | cons x tl => exact restSafe_cons j 44 _ (by decide)

theorem restSafe_membersTail (j : Json) (tl : JsonMembers) (r : List Nat) :
    restSafe j (membersTailRender tl ++ 125 :: r) := by
  cases tl with
  | nil => exact restSafe_cons j 125 r (by decide)
  | cons k v tl => exact restSafe_cons j 44 _ (by decide)

theorem skipWs_elemsTailR (tl : JsonList) (r : List Nat) :
    skipWs (elemsTailRender tl ++ 93 :: r) = elemsTailRender tl ++ 93 :: r := by
  cases tl with
  | nil => simp [elemsTailRender, skipWs, isWsByte]
  | cons x tl => simp [elemsTailRender, skipWs, isWsByte]

theorem skipWs_membersTailR (tl : JsonMembers) (r : List Nat) :
    skipWs (membersTailRender tl ++ 125 :: r) = membersTailRender tl ++ 125 :: r := by
  cases tl with
  | nil => simp [membersTailRender, skipWs, isWsByte]
  | cons k v tl => simp [membersTailRender, skipWs, isWsByte]

theorem skipWs_elemsBody (xs : JsonList) (h : goodElems xs = true) (r : List Nat) :
    skipWs (renderElems xs ++ 93 :: r) = renderElems xs ++ 93 :: r := by
  cases xs with
  | nil => simp [renderElems, skipWs, isWsByte]
  | cons x tl =>
    have hx : goodJson x = true := by
      simp only [goodElems, Bool.and_eq_true] at h
      exact h.1
    obtain ⟨b, t, hbt, hws, -, -, -, -⟩ := renderJson_head x hx
    rw [renderElems_cons, hbt]
    simp only [List.cons_append, List.append_assoc]
    exact skipWs_not_ws b _ hws

theorem skipWs_membersBody (ms : JsonMembers) (r : List Nat) :
    skipWs (renderMembers ms ++ 125 :: r) = renderMembers ms ++ 125 :: r := by
  cases ms with
  | nil => simp [renderMembers, skipWs, isWsByte]
  | cons k v tl =>
    rw [renderMembers_cons]
    simp only [List.cons_append, List.append_assoc]
    exact skipWs_not_ws 34 _ (by decide)

set_option maxHeartbeats 1600000 in
mutual

/-- A rendered good value followed by a safe rest parses back to itself. -/
theorem parseValue_render : ∀ (j : Json) (fuel : Nat) (rest : List Nat),
    goodJson j = true → needJ j ≤ fuel → restSafe j rest →
    parseValue fuel (renderJson j ++ rest) = some (j, rest)
  | .null, fuel, rest, _, _, _ => by
    rw [parseValue.eq_def]
    simp [renderJson, skipWs, isWsByte]
  | .bool true, fuel, rest, _, _, _ => by
    rw [parseValue.eq_def]
    simp [renderJson, skipWs, isWsByte]
  | .bool false, fuel, rest, _, _, _ => by
    rw [parseValue.eq_def]
    simp [renderJson, skipWs, isWsByte]
  | .num lex, fuel, rest, h, _, hrs => by
    simp only [goodJson, Bool.and_eq_true, List.all_eq_true] at h
    cases lex with
    | nil => simp at h
    | cons b t =>
      have hb := h.2 b (List.mem_cons_self b t)
      simp only [isDigitByte, Bool.and_eq_true, decide_eq_true_eq] at hb
      have h34 : b ≠ 34 := by omega
      have h91 : b ≠ 91 := by omega
      have h123 : b ≠ 123 := by omega
      have h116 : b ≠ 116 := by omega
      have h102 : b ≠ 102 := by omega
      have h110 : b ≠ 110 := by omega
      have hns : isNumStart b = true := by
        simp only [isNumStart, isDigitByte, Bool.or_eq_true, Bool.and_eq_true,
          decide_eq_true_eq]
        omega
      have hren : renderJson (.num (b :: t)) = b :: t := by simp [renderJson]
      have ht : ∀ x ∈ t, isNumCont x = true := by
        intro x hx
        have hd := h.2 x (List.mem_cons_of_mem b hx)
        simp [isNumCont, hd]
      rw [parseValue.eq_def, hren]
      simp only [List.cons_append]
      rw [skipWs_not_ws b _ (by simp only [isWsByte]; simp; omega)]
      simp only [h34, h91, h123, h116, h102, h110, hns, if_false, if_true, ite_false,
        ite_true]
      rw [takeWhile_append_all _ t rest ht, dropWhile_append_all _ t rest ht]
      cases rest with
      | nil => simp
      | cons r0 rr =>
        have hr0 : isNumCont r0 = false := hrs r0 rfl
        simp [List.takeWhile_cons, List.dropWhile_cons, hr0]
  | .str s0, fuel, rest, _, _, _ => by
    rw [parseValue.eq_def]
    have hs : renderJson (.str s0) ++ rest = 34 :: (escBytes s0 ++ (34 :: rest)) := by
      simp [renderJson]
    rw [hs, skipWs_not_ws 34 _ (by decide)]
    simp [parseStringBody_escape]
  | .arr xs, fuel, rest, h, hf, _ => by
    simp only [goodJson] at h
    obtain ⟨f, rfl⟩ : ∃ f, fuel = f + 1 :=
      ⟨fuel - 1, by simp only [needJ] at hf; omega⟩
    have hs : renderJson (.arr xs) ++ rest = 91 :: (renderElems xs ++ 93 :: rest) := by
      simp [renderJson]
    have hE := parseElems_render xs f rest h (by simp only [needJ] at hf; omega)
    rw [parseValue.eq_def, hs, skipWs_not_ws 91 _ (by decide)]
    simp [skipWs_elemsBody xs h rest, hE]
  | .obj ms, fuel, rest, h, hf, _ => by
    simp only [goodJson] at h
    obtain ⟨f, rfl⟩ : ∃ f, fuel = f + 1 :=
      ⟨fuel - 1, by simp only [needJ] at hf; omega⟩
    have hs : renderJson (.obj ms) ++ rest = 123 :: (renderMembers ms ++ 125 :: rest) := by
      simp [renderJson]
    have hM := parseMembers_render ms f rest h (by simp only [needJ] at hf; omega)
    rw [parseValue.eq_def, hs, skipWs_not_ws 123 _ (by decide)]
    simp [skipWs_membersBody ms rest, hM]
termination_by j fuel rest h1 h2 h3 => sizeOf j

/-- Rendered array contents followed by `]` parse back to the element list. -/
theorem parseElems_render : ∀ (xs : JsonList) (fuel : Nat) (rest : List Nat),
    goodElems xs = true → needElems xs ≤ fuel →
    parseElems fuel (renderElems xs ++ 93 :: rest) = some (xs, rest)
  | .nil, fuel, rest, _, _ => by
    rw [parseElems.eq_def]
    simp [renderElems]
  | .cons x tl, fuel, rest, h, hf => by
    simp only [goodElems, Bool.and_eq_true] at h
    obtain ⟨f, rfl⟩ : ∃ f, fuel = f + 1 :=
      ⟨fuel - 1, by simp only [needElems] at hf; omega⟩
    have hfx : needJ x ≤ f := by simp only [needElems] at hf; omega
    have hft : needElemsTail tl ≤ f := by simp only [needElems] at hf; omega
    obtain ⟨b, t, hbt, hws, hb93, -, -, -⟩ := renderJson_head x h.1
    have hs : renderElems (.cons x tl) ++ 93 :: rest
        = renderJson x ++ (elemsTailRender tl ++ 93 :: rest) := by
      rw [renderElems_cons]
      simp [List.append_assoc]
    have hpv := parseValue_render x f (elemsTailRender tl ++ 93 :: rest) h.1 hfx
      (restSafe_elemsTail x tl rest)
    have hpt := parseElemsTail_render tl f rest h.2 hft
    rw [hbt] at hpv
    simp only [List.cons_append] at hpv
    rw [parseElems.eq_def, hs, hbt]
    simp only [List.cons_append, List.head?_cons]
    rw [if_neg (by simp [hb93])]
    simp [hpv, skipWs_elemsTailR, hpt]
termination_by xs fuel rest h1 h2 => sizeOf xs

/-- Rendered array tail (after the first element) parses back. -/
theorem parseElemsTail_render : ∀ (tl : JsonList) (fuel : Nat) (rest : List Nat),
    goodElems tl = true → needElemsTail tl ≤ fuel →
    parseElemsTail fuel (elemsTailRender tl ++ 93 :: rest) = some (tl, rest)
  | .nil, fuel, rest, _, _ => by
    rw [parseElemsTail.eq_def]
    simp [elemsTailRender]
  | .cons x tl, fuel, rest, h, hf => by
    simp only [goodElems, Bool.and_eq_true] at h
    obtain ⟨f, rfl⟩ : ∃ f, fuel = f + 1 :=
      ⟨fuel - 1, by simp only [needElemsTail] at hf; omega⟩
    have hfx : needJ x ≤ f := by simp only [needElemsTail] at hf; omega
    have hft : needElemsTail tl ≤ f := by simp only [needElemsTail] at hf; omega
    have hs : elemsTailRender (.cons x tl) ++ 93 :: rest
        = 44 :: (renderJson x ++ (elemsTailRender tl ++ 93 :: rest)) := by
      show (44 :: renderElems (.cons x tl)) ++ 93 :: rest = _
      rw [renderElems_cons]
      simp [List.append_assoc]
    have hpv := parseValue_render x f (elemsTailRender tl ++ 93 :: rest) h.1 hfx
      (restSafe_elemsTail x tl rest)
    have hpt := parseElemsTail_render tl f rest h.2 hft
    rw [parseElemsTail.eq_def, hs]
    simp [hpv, skipWs_elemsTailR, hpt]
termination_by tl fuel rest h1 h2 => sizeOf tl

/-- Rendered object contents followed by a closing brace parse back. -/
theorem parseMembers_render : ∀ (ms : JsonMembers) (fuel : Nat) (rest : List Nat),
    goodMembers ms = true → needMembers ms ≤ fuel →
    parseMembers fuel (renderMembers ms ++ 125 :: rest) = some (ms, rest)
  | .nil, fuel, rest, _, _ => by
    rw [parseMembers.eq_def]
    simp [renderMembers]
  | .cons k v tl, fuel, rest, h, hf => by
    simp only [goodMembers, Bool.and_eq_true] at h
    obtain ⟨f, rfl⟩ : ∃ f, fuel = f + 1 :=
      ⟨fuel - 1, by simp only [needMembers] at hf; omega⟩
    have hfv : needJ v ≤ f := by simp only [needMembers] at hf; omega
    have hft : needMembersTail tl ≤ f := by simp only [needMembers] at hf; omega
    have hs : renderMembers (.cons k v tl) ++ 125 :: rest
        = 34 :: (escBytes k
            ++ (34 :: 58 :: (renderJson v ++ (membersTailRender tl ++ 125 :: rest)))) := by
      rw [renderMembers_cons]
      simp [List.append_assoc]
    have hpv := parseValue_render v f (membersTailRender tl ++ 125 :: rest) h.1 hfv
      (restSafe_membersTail v tl rest)
    have hpt := parseMembersTail_render tl f rest h.2 hft
    rw [parseMembers.eq_def, hs]
    simp [parseStringBody_escape, skipWs_not_ws, isWsByte, hpv, skipWs_membersTailR, hpt]
termination_by ms fuel rest h1 h2 => sizeOf ms

/-- Rendered object tail (after the first member) parses back. -/
theorem parseMembersTail_render : ∀ (tl : JsonMembers) (fuel : Nat) (rest : List Nat),
    goodMembers tl = true → needMembersTail tl ≤ fuel →
    parseMembersTail fuel (membersTailRender tl ++ 125 :: rest) = some (tl, rest)
  | .nil, fuel, rest, _, _ => by
    rw [parseMembersTail.eq_def]
    simp [membersTailRender]
  | .cons k v tl, fuel, rest, h, hf => by
    simp only [goodMembers, Bool.and_eq_true] at h
    obtain ⟨f, rfl⟩ : ∃ f, fuel = f + 1 :=
      ⟨fuel - 1, by simp only [needMembersTail] at hf; omega⟩
    have hfv : needJ v ≤ f := by simp only [needMembersTail] at hf; omega
    have hft : needMembersTail tl ≤ f := by simp only [needMembersTail] at hf; omega
    have hs : membersTailRender (.cons k v tl) ++ 125 :: rest
        = 44 :: 34 :: (escBytes k
            ++ (34 :: 58 :: (renderJson v ++ (membersTailRender tl ++ 125 :: rest)))) := by
      show (44 :: renderMembers (.cons k v tl)) ++ 125 :: rest = _
      rw [renderMembers_cons]
      simp [List.append_assoc]
    have hpv := parseValue_render v f (membersTailRender tl ++ 125 :: rest) h.1 hfv
      (restSafe_membersTail v tl rest)
    have hpt := parseMembersTail_render tl f rest h.2 hft
    rw [parseMembersTail.eq_def, hs]
    simp [parseStringBody_escape, skipWs_not_ws, isWsByte, hpv, skipWs_membersTailR, hpt]
termination_by tl fuel rest h1 h2 => sizeOf tl

end

theorem jsonToU8_natDigits (b : Nat) (h : b < 256) :
    jsonToU8 (.num (natDigits b)) = some b := by
  simp only [jsonToU8]
  rw [if_pos ⟨natDigits_ne_nil b, List.all_eq_true.mpr (natDigits_digits b)⟩]
  rw [digitsToNat_natDigits, if_pos h]

theorem jsonToU8List_natList : ∀ (l : List Nat), (∀ b ∈ l, b < 256) →
    jsonToU8List (natListToJson l) = some l
  | [], _ => rfl
  | b :: rest, h => by
    have hb := h b (List.mem_cons_self b rest)
    have ih := jsonToU8List_natList rest (fun x hx => h x (List.mem_cons_of_mem b hx))
    simp [natListToJson, jsonToU8List, jsonToU8_natDigits b hb, ih]

theorem goodElems_natList : ∀ l : List Nat, goodElems (natListToJson l) = true
  | [] => rfl
  | b :: rest => by
    have ih := goodElems_natList rest
    have hne : (natDigits b).isEmpty = false := by
      cases hnd : natDigits b with
      | nil => exact absurd hnd (natDigits_ne_nil b)
      | cons d ds => rfl
    simp [natListToJson, goodElems, goodJson, ih, hne, List.all_eq_true]
    exact natDigits_digits b

theorem goodJson_astOfActionData (d : WActionData) :
    goodJson (astOfActionData d) = true := by
  have hi := goodElems_natList d.input
  simp only [astOfActionData]
  show goodMembers _ = true
  simp [goodMembers, goodJson, hi]

theorem goodJson_astOfNodeMessage : ∀ m : WNodeMessage, goodJson (astOfNodeMessage m) = true
  | .shutdown => rfl
  | .action d => by
    have h := goodJson_astOfActionData d
    simp only [astOfNodeMessage]
    show goodMembers _ = true
    simp [goodMembers, h]

theorem goodJson_astOfActionMessage : ∀ m : WActionMessage,
    goodJson (astOfActionMessage m) = true
  | .actionStarted id => by simp [astOfActionMessage, goodJson, goodMembers]
  | .actionOutputLine id content level => by
    simp [astOfActionMessage, goodJson, goodMembers]
  | .actionResult id success => by simp [astOfActionMessage, goodJson, goodMembers]
  | .nodeShutdown success => by simp [astOfActionMessage, goodJson, goodMembers]
  | .nodeStartFailed reason => by simp [astOfActionMessage, goodJson, goodMembers]

theorem decodeActionData_ast (d : WActionData) (h : ∀ b ∈ d.input, b < 256) :
    decodeActionData (astOfActionData d) = some d := by
  have hin := jsonToU8List_natList d.input h
  simp [decodeActionData, astOfActionData, memberLookup, jsonToStr, hin,
    show (strBytes "id" = strBytes "name") = False from by decide,
    show (strBytes "id" = strBytes "action") = False from by decide,
    show (strBytes "id" = strBytes "input") = False from by decide,
    show (strBytes "name" = strBytes "action") = False from by decide,
    show (strBytes "name" = strBytes "input") = False from by decide,
    show (strBytes "action" = strBytes "input") = False from by decide]

theorem decodeNodeMessage_ast (m : WNodeMessage) (h : validNodeMsg m) :
    decodeNodeMessage (astOfNodeMessage m) = some m := by
  cases m with
  | shutdown => rfl
  | action d =>
    have hd := decodeActionData_ast d h
    simp [decodeNodeMessage, astOfNodeMessage, hd]

theorem decodeLevel_name (l : WLevel) :
    decodeLevel (.str (strBytes (levelName l))) = some l := by
  cases l <;> rfl

theorem decodeActionMessage_ast : ∀ m : WActionMessage,
    decodeActionMessage (astOfActionMessage m) = some m
  | .actionStarted id => by
    simp [decodeActionMessage, astOfActionMessage, memberLookup, jsonToStr]
  | .actionOutputLine id content level => by
    have hl := decodeLevel_name level
    simp [decodeActionMessage, astOfActionMessage, memberLookup, jsonToStr, hl,
      show (strBytes "ActionOutputLine" = strBytes "ActionStarted") = False from by decide,
      show (strBytes "id" = strBytes "content") = False from by decide,
      show (strBytes "id" = strBytes "level") = False from by decide,
      show (strBytes "content" = strBytes "level") = False from by decide]
  | .actionResult id success => by
    simp [decodeActionMessage, astOfActionMessage, memberLookup, jsonToStr, jsonToBool,
      show (strBytes "ActionResult" = strBytes "ActionStarted") = False from by decide,
      show (strBytes "ActionResult" = strBytes "ActionOutputLine") = False from by decide,
      show (strBytes "id" = strBytes "success") = False from by decide]
  | .nodeShutdown success => by
    simp [decodeActionMessage, astOfActionMessage, memberLookup, jsonToBool,
      show (strBytes "NodeShutdown" = strBytes "ActionStarted") = False from by decide,
      show (strBytes "NodeShutdown" = strBytes "ActionOutputLine") = False from by decide,
      show (strBytes "NodeShutdown" = strBytes "ActionResult") = False from by decide]
  | .nodeStartFailed reason => by
    simp [decodeActionMessage, astOfActionMessage, memberLookup, jsonToStr,
      show (strBytes "NodeStartFailed" = strBytes "ActionStarted") = False from by decide,
      show (strBytes "NodeStartFailed" = strBytes "ActionOutputLine") = False from by decide,
      show (strBytes "NodeStartFailed" = strBytes "ActionResult") = False from by decide,
      show (strBytes "NodeStartFailed" = strBytes "NodeShutdown") = False from by decide]

/-- `read_msg` after `write_msg`: one full frame followed by anything is read
back as the original message, consuming exactly the frame. -/
theorem read_msg_write {α : Type} (astOf : α → Json) (decode : Json → Option α)
    (m : α) (rest : List Nat) (hgood : goodJson (astOf m) = true)
    (hdec : decode (astOf m) = some m) :
    read_msg decode (write_msg astOf m ++ rest) = .ok (some m, rest) := by
  have hnl := renderJson_no_nl (astOf m) hgood
  have hw : write_msg astOf m ++ rest = renderJson (astOf m) ++ 10 :: rest := by
    simp [write_msg]
  have hrl : readLine (renderJson (astOf m) ++ 10 :: rest)
      = (renderJson (astOf m) ++ [10], rest) :=
    readLine_of_no_newline _ rest hnl
  have hfuel : needJ (astOf m) ≤ (renderJson (astOf m) ++ [10]).length + 1 := by
    have := needJ_le (astOf m)
    simp only [List.length_append]
    omega
  have hpv := parseValue_render (astOf m) ((renderJson (astOf m) ++ [10]).length + 1)
    [10] hgood hfuel (restSafe_cons _ 10 [] (by decide))
  have hpv2 : parseValue ((renderJson (astOf m)).length + 1 + 1)
      (renderJson (astOf m) ++ [10]) = some (astOf m, [10]) := by
    have e : (renderJson (astOf m) ++ [10]).length + 1
        = (renderJson (astOf m)).length + 1 + 1 := by simp
    rw [← e]
    exact hpv
  have hjp : jsonParse (renderJson (astOf m) ++ [10]) = some (astOf m) := by
    simp [jsonParse, hpv2, skipWs, isWsByte]
  simp [read_msg, hw, hrl, hjp, hdec]

theorem readLine_split : ∀ s : List Nat, (readLine s).1 ++ (readLine s).2 = s
  | [] => rfl
  | b :: rest => by
    have ih := readLine_split rest
    simp only [readLine]
    by_cases hb : b = 10
    · subst hb
      simp
    · simp [hb, ih]

theorem readLine_ne_nil (b : Nat) (rest : List Nat) : (readLine (b :: rest)).1 ≠ [] := by
  simp only [readLine]
  by_cases hb : b = 10 <;> simp [hb]

theorem read_msg_eof {α : Type} (decode : Json → Option α) :
    read_msg decode ([] : List Nat) = .error () := by
  simp [read_msg, readLine, jsonParse, parseValue, skipWs]

/-- A successful `read_msg` consumes at least the one-line prefix. -/
theorem read_msg_consumes {α : Type} (decode : Json → Option α) (s : List Nat)
    (o : Option α) (rest : List Nat) (h : read_msg decode s = .ok (o, rest)) :
    rest.length < s.length := by
  cases s with
  | nil =>
    rw [read_msg_eof] at h
    exact absurd h (by simp)
  | cons b s2 =>
    have hsplit := readLine_split (b :: s2)
    have hne := readLine_ne_nil b s2
    have h1 : (readLine (b :: s2)).1.length + (readLine (b :: s2)).2.length
        = s2.length + 1 := by
      have hl := congrArg List.length hsplit
      simpa using hl
    have h2 : 0 < (readLine (b :: s2)).1.length := List.length_pos.mpr hne
    simp only [read_msg] at h
    cases hjp : jsonParse (readLine (b :: s2)).1 with
    | none =>
      rw [hjp] at h
      simp at h
    | some v =>
      rw [hjp] at h
      simp at h
      have hlen2 := congrArg List.length h.2
      simp only [List.length_cons]
      omega

/-- With enough fuel the reader loop's output does not depend on the fuel. -/
theorem readerLoopF_irrel {α : Type} (decode : Json → Option α) :
    ∀ (fuel1 fuel2 : Nat) (s : List Nat), s.length < fuel1 → s.length < fuel2 →
      readerLoopF decode fuel1 s = readerLoopF decode fuel2 s
  | 0, _, s, h1, _ => absurd h1 (by omega)
  | _ + 1, 0, s, _, h2 => absurd h2 (by omega)
  | f1 + 1, f2 + 1, s, h1, h2 => by
    simp only [readerLoopF]
    rcases hr : read_msg decode s with u | ⟨o, rest⟩
    · rfl
    · cases o with
      | none =>
        have hlen := read_msg_consumes decode s none rest hr
        exact readerLoopF_irrel decode f1 f2 rest (by omega) (by omega)
      | some m =>
        have hlen := read_msg_consumes decode s (some m) rest hr
        show m :: readerLoopF decode f1 rest = m :: readerLoopF decode f2 rest
        rw [readerLoopF_irrel decode f1 f2 rest (by omega) (by omega)]

/-- An undecodable but valid-JSON line is dropped and the reader continues. -/
theorem readerLoop_drop {α : Type} (decode : Json → Option α) (l s : List Nat)
    (hnl : (10 : Nat) ∉ l) (v : Json) (hjp : jsonParse (l ++ [10]) = some v)
    (hdec : decode v = none) :
    read_msg decode (l ++ 10 :: s) = .ok (none, s)
    ∧ readerLoop decode (l ++ 10 :: s) = readerLoop decode s := by
  have hrl := readLine_of_no_newline l s hnl
  have hrm : read_msg decode (l ++ 10 :: s) = .ok (none, s) := by
    simp [read_msg, hrl, hjp, hdec]
  refine ⟨hrm, ?_⟩
  simp only [readerLoop]
  have hstep : ∀ f : Nat, readerLoopF decode (f + 1) (l ++ 10 :: s)
      = readerLoopF decode f s := by
    intro f
    simp only [readerLoopF, hrm]
  rw [hstep]
  exact readerLoopF_irrel decode _ _ s (by simp [List.length_append]; omega) (by omega)

/-- An invalid line errors `read_msg` and terminates the reader. -/
theorem readerLoop_error {α : Type} (decode : Json → Option α) (l s : List Nat)
    (hnl : (10 : Nat) ∉ l) (hjp : jsonParse (l ++ [10]) = none) :
    read_msg decode (l ++ 10 :: s) = .error ()
    ∧ readerLoop decode (l ++ 10 :: s) = [] := by
  have hrl := readLine_of_no_newline l s hnl
  have hrm : read_msg decode (l ++ 10 :: s) = .error () := by
    simp [read_msg, hrl, hjp]
  refine ⟨hrm, ?_⟩
  simp only [readerLoop]
  simp only [readerLoopF, hrm]

/- ===== C4: wire frame format ===== -/

/-- C4 counterexample.  The claim says every message is a bincode-style
length-prefixed little-endian binary frame.  The transport actually writes the
serde_json text of the message followed by a newline: the `Shutdown` frame is
the eleven bytes `"Shutdown"\n`, which is not a length-prefixed frame for
either a u64 or a u32 length prefix. -/
theorem c4_counterexample :
    write_msg astOfNodeMessage .shutdown
      = [34, 83, 104, 117, 116, 100, 111, 119, 110, 34, 10]
    ∧ (¬ ∃ payload, write_msg astOfNodeMessage .shutdown = lengthPrefixedFrame payload)
    ∧ (¬ ∃ payload, write_msg astOfNodeMessage .shutdown = lengthPrefixedFrame32 payload) := by
  have hsb : strBytes "Shutdown" = [83, 104, 117, 116, 100, 111, 119, 110] := by decide
  have hw : write_msg astOfNodeMessage .shutdown
      = [34, 83, 104, 117, 116, 100, 111, 119, 110, 34, 10] := by
    simp [write_msg, astOfNodeMessage, renderJson, hsb, escBytes, escByte, hexDigit]
  refine ⟨hw, ?_, ?_⟩
  · rintro ⟨p, hp⟩
    rw [hw] at hp
    have hlen : p.length = 3 := by
      have hl := congrArg List.length hp
      simp [lengthPrefixedFrame, leBytes_length] at hl
      omega
    rw [lengthPrefixedFrame, hlen] at hp
    rw [show leBytes 8 3 = [3, 0, 0, 0, 0, 0, 0, 0] from by decide] at hp
    simp at hp
  · rintro ⟨p, hp⟩
    rw [hw] at hp
    have hlen : p.length = 7 := by
      have hl := congrArg List.length hp
      simp [lengthPrefixedFrame32, leBytes_length] at hl
      omega
    rw [lengthPrefixedFrame32, hlen] at hp
    rw [show leBytes 4 7 = [7, 0, 0, 0] from by decide] at hp
    simp at hp

/-- C4 amended.  Every `NodeMessage` and `ActionMessage` written to the
transport is framed as the serde_json rendering of the externally tagged
message union followed by a newline, and `read_msg` decodes exactly that
framing: reading a written frame followed by anything returns the original
message and consumes exactly the frame. -/
theorem c4_wire_frame_format (m : WNodeMessage) (m2 : WActionMessage)
    (rest rest2 : List Nat) (h : validNodeMsg m) :
    write_msg astOfNodeMessage m = renderJson (astOfNodeMessage m) ++ [10]
    ∧ read_msg decodeNodeMessage (write_msg astOfNodeMessage m ++ rest)
        = .ok (some m, rest)
    ∧ read_msg decodeActionMessage (write_msg astOfActionMessage m2 ++ rest2)
        = .ok (some m2, rest2) := by
  refine ⟨rfl, ?_, ?_⟩
  · exact read_msg_write astOfNodeMessage decodeNodeMessage m rest
      (goodJson_astOfNodeMessage m) (decodeNodeMessage_ast m h)
  · exact read_msg_write astOfActionMessage decodeActionMessage m2 rest2
      (goodJson_astOfActionMessage m2) (decodeActionMessage_ast m2)

/-- C4 amended witness: `Shutdown` and `NodeShutdown{true}` frames round-trip. -/
theorem c4_wire_frame_format_witness :
    validNodeMsg .shutdown
    ∧ (write_msg astOfNodeMessage .shutdown
        = renderJson (astOfNodeMessage .shutdown) ++ [10]
      ∧ read_msg decodeNodeMessage (write_msg astOfNodeMessage .shutdown ++ [7])
          = .ok (some .shutdown, [7])
      ∧ read_msg decodeActionMessage
          (write_msg astOfActionMessage (.nodeShutdown true) ++ [9])
          = .ok (some (.nodeShutdown true), [9])) :=
  ⟨trivial, c4_wire_frame_format .shutdown (.nodeShutdown true) [7] [9] trivial⟩

/- ===== C10: lossy line-delimited inbound handling ===== -/

/-- C10.  Inbound message handling is lossy but line-delimited: the empty read
at EOF makes `read_msg` return an error; a line that is valid JSON but does
not deserialize into the expected type makes `read_msg` return `none` and the
reader thread keeps running with the rest of the stream (the message is
silently dropped); a line that is not valid JSON makes `read_msg` return an
error and the reader thread terminates. -/
theorem c10_lossy_line_handling {α : Type} (decode : Json → Option α)
    (l s : List Nat) (hnl : (10 : Nat) ∉ l) :
    read_msg decode ([] : List Nat) = .error ()
    ∧ (∀ v, jsonParse (l ++ [10]) = some v → decode v = none →
        read_msg decode (l ++ 10 :: s) = .ok (none, s)
        ∧ readerLoop decode (l ++ 10 :: s) = readerLoop decode s)
    ∧ (jsonParse (l ++ [10]) = none →
        read_msg decode (l ++ 10 :: s) = .error ()
        ∧ readerLoop decode (l ++ 10 :: s) = []) := by
  refine ⟨read_msg_eof decode, ?_, ?_⟩
  · intro v hjp hdec
    exact readerLoop_drop decode l s hnl v hjp hdec
  · intro hjp
    exact readerLoop_error decode l s hnl hjp

/-- C10 witness: the line `true` is valid JSON that is not a `NodeMessage`. -/
theorem c10_lossy_line_handling_witness :
    (10 : Nat) ∉ [116, 114, 117, 101]
    ∧ (read_msg decodeNodeMessage ([] : List Nat) = .error ()
      ∧ (∀ v, jsonParse ([116, 114, 117, 101] ++ [10]) = some v →
          decodeNodeMessage v = none →
          read_msg decodeNodeMessage ([116, 114, 117, 101] ++ 10 :: [83])
            = .ok (none, [83])
          ∧ readerLoop decodeNodeMessage ([116, 114, 117, 101] ++ 10 :: [83])
              = readerLoop decodeNodeMessage [83])
      ∧ (jsonParse ([116, 114, 117, 101] ++ [10]) = none →
          read_msg decodeNodeMessage ([116, 114, 117, 101] ++ 10 :: [83]) = .error ()
          ∧ readerLoop decodeNodeMessage ([116, 114, 117, 101] ++ 10 :: [83]) = [])) :=
  ⟨by decide, c10_lossy_line_handling decodeNodeMessage [116, 114, 117, 101] [83]
    (by decide)⟩
